import Mathlib

/-!
# Table output of the scanner (`internal/output/table.go`)

A shallow embedding of `PrintTableResults`, `tableBuilder` and
`tableBuilderInner`, followed by the properties of the row builder and of the
table assembly.

Conventions of the embedding

* A Go `string` is an immutable sequence of bytes, so it is a `List UInt8`;
  `len(s)` is `List.length` and `s[0:10]` is `List.take 10` guarded by the
  run-time bounds check.
* A Go run-time panic (index out of range, slice bounds out of range) is an
  `Except.error`; every `for ... range` loop is a `List.foldlM` in `Except Panic`
  whose accumulator holds the variables the loop body assigns.
* Values read from other packages (`osv.BaseVulnerabilityURL`, the escape
  sequences of `text.Bold` and `text.Reset`) and from the operating system
  (`os.Getwd`, `filepath.Rel`, `term.GetSize`) are fields of `Env`.
-/

namespace OsvScanner

/-! ## Strings -/

/-- A Go string: a sequence of bytes. -/
abbrev GoString := List UInt8

/-- The bytes of an ASCII literal of the source text. -/
def lit (s : String) : GoString := s.data.map (fun c => UInt8.ofNat c.toNat)

/-- The string literal `"GIT"`. -/
def GIT : GoString := lit "GIT"

/-- The string literal `"\n"`. -/
def newline : GoString := [10]

/-- Go `strings.Join(elems, sep)`. -/
def Join : List GoString → GoString → GoString
  | [], _ => []
  | [a], _ => a
  | a :: b :: rest, sep => a ++ sep ++ Join (b :: rest) sep

/-- Go `fmt.Sprintf("%v", s)` for a value of a string kind: the string itself. -/
def Sprintf_v (s : GoString) : GoString := s

/-! ## Data model (`pkg/models`) -/

/-- Modelled from the spec: `models.Event`, declared in `pkg/models`; an event of a range,
with its introduced point and its fixed point. -/
structure Event where
  Introduced : GoString
  Fixed : GoString
deriving DecidableEq, Repr

/-- Modelled from the spec: `models.Range`, declared in `pkg/models`; a range has a type
tag (the field `Type`, here `RangeType`) and an ordered sequence of events. -/
structure Range where
  RangeType : GoString
  Events : List Event
deriving DecidableEq, Repr

/-- Modelled from the spec: `models.Package`, declared in `pkg/models`; the package named
by an affected entry (ecosystem and name). -/
structure AffectedPackage where
  Ecosystem : GoString
  Name : GoString
deriving DecidableEq, Repr

/-- Modelled from the spec: `models.Affected`, declared in `pkg/models`; an affected entry
names a package and has an ordered sequence of ranges. -/
structure Affected where
  Package : AffectedPackage
  Ranges : List Range
deriving DecidableEq, Repr

/-- Modelled from the spec: `models.Vulnerability`, declared in `pkg/models`; an advisory
record has an identifier and an ordered sequence of affected entries. -/
structure Vulnerability where
  ID : GoString
  Affected : List Affected
deriving DecidableEq, Repr

/-- Modelled from the spec: the method `IsCalled` of `models.GroupInfo` is declared
in `pkg/models`; a group is a list of identifiers plus a derived boolean "called"
flag, and the field `IsCalled` holds the value the method returns. -/
structure GroupInfo where
  IDs : List GoString
  IsCalled : Bool
deriving DecidableEq, Repr

/-- Modelled from the spec: `models.PackageInfo`, declared in `pkg/models`; the identity of
a resolved package (ecosystem, name, version). -/
structure PackageInfo where
  Name : GoString
  Version : GoString
  Ecosystem : GoString
deriving DecidableEq, Repr

/-- Modelled from the spec: `models.PackageVulns`, declared in `pkg/models`; a resolved
package with its raw advisory records and its groups, both ordered. -/
structure PackageVulns where
  Package : PackageInfo
  Vulnerabilities : List Vulnerability
  Groups : List GroupInfo
deriving DecidableEq, Repr

/-- Modelled from the spec: `models.SourceInfo`, declared in `pkg/models`; a scanned source
location with its filesystem path (`SourceType` is the field `Type`). -/
structure SourceInfo where
  Path : GoString
  SourceType : GoString
deriving DecidableEq, Repr

/-- Modelled from the spec: `models.PackageSource`, declared in `pkg/models`; one source
with its ordered sequence of packages. -/
structure PackageSource where
  Source : SourceInfo
  Packages : List PackageVulns
deriving DecidableEq, Repr

/-- Modelled from the spec: `models.VulnerabilityResults`, declared in `pkg/models`; the
scan result, an ordered sequence of sources. It is the value behind the non-nil pointer
the functions receive. -/
structure VulnerabilityResults where
  Results : List PackageSource
deriving DecidableEq, Repr

/-! ## Environment and run-time failures -/

/-- What the code reads from outside the file: constants of other packages and
the results of the operating-system calls. `Getwd` and `GetSize` are `none`
when the call returns an error; `Rel base targ` is `none` when `filepath.Rel`
returns an error. `GetSize` is the width `term.GetSize` reports for the standard
output of the process (line 23), whatever `outputWriter` is. -/
structure Env where
  BaseVulnerabilityURL : GoString
  BoldEscapeSeq : GoString
  ResetEscapeSeq : GoString
  Getwd : Option GoString
  Rel : GoString → GoString → Option GoString
  GetSize : Option Int

/-- A Go run-time panic: `index out of range [idx] with length len` and
`slice bounds out of range [:hi] with length len`. -/
inductive Panic where
  | indexOutOfRange (idx len : Nat)
  | sliceBoundsOutOfRange (hi len : Nat)
deriving DecidableEq, Repr

/-- A Go `map[string]bool`: the value stored under each key, if any. -/
abbrev StringBoolMap := GoString → Option Bool

/-- The empty map literal `map[string]bool{}`. -/
def StringBoolMap.empty : StringBoolMap := fun _ => none

/-- The assignment `m[k] = v`. -/
def StringBoolMap.set (m : StringBoolMap) (k : GoString) (v : Bool) : StringBoolMap :=
  fun x => if x = k then some v else m x

/-! ## The row builder -/

/-- A row of the table (`table.Row`): its cells. -/
abbrev Row := List GoString

/-- The element type of the result of `tableBuilderInner`. -/
structure tbInnerResponse where
  row : Row
  shouldMerge : Bool
deriving DecidableEq, Repr

/-- The variables assigned inside the fixed-version loops (lines 105-139). -/
structure FixedState where
  fixedVersions : List GoString
  uniqueFixedVersion : StringBoolMap

/-- Lines 118-123: `fixedVersion` of a range, `evnt[1].Fixed`, cut to its first ten
bytes when the range type is `"GIT"`. -/
def rangeFixedVersion (rng : Range) : Except Panic GoString :=
  let rangeType := rng.RangeType
  let evnt := rng.Events
  match evnt.get? 1 with
  | none => .error (.indexOutOfRange 1 evnt.length)
  | some ev =>
    let fixedVersion := ev.Fixed
    if rangeType = GIT then
      if 10 ≤ fixedVersion.length then .ok (fixedVersion.take 10)
      else .error (.sliceBoundsOutOfRange 10 fixedVersion.length)
    else .ok fixedVersion

/-- Lines 129-133: the emphasis applied to a fixed version when styling is on. -/
def styled (env : Env) (addStyling : Bool) (fix : GoString) : GoString :=
  if addStyling then env.BoldEscapeSeq ++ fix ++ env.ResetEscapeSeq else fix

/-- Body of the loop over `aff.Ranges` (lines 117-134). -/
def rangeBody (env : Env) (addStyling : Bool) (st : FixedState) (rng : Range) :
    Except Panic FixedState := do
  let fixedVersion ← rangeFixedVersion rng
  if (st.uniqueFixedVersion fixedVersion).isSome then
    pure st
  else
    let uniqueFixedVersion := st.uniqueFixedVersion.set fixedVersion true
    let fix := Sprintf_v fixedVersion
    pure ⟨st.fixedVersions ++ [styled env addStyling fix], uniqueFixedVersion⟩

/-- Body of the loop over `vuln.Affected` (lines 111-136). -/
def affectedBody (env : Env) (addStyling : Bool) (pkg : PackageVulns)
    (st : FixedState) (aff : Affected) : Except Panic FixedState :=
  let pkg_affected := aff.Package
  let ecosystem_affectedPkg := Sprintf_v pkg_affected.Ecosystem
  let eco_frompkg := Sprintf_v pkg.Package.Ecosystem
  let name := pkg_affected.Name
  if pkg.Package.Name = name ∧ eco_frompkg = ecosystem_affectedPkg then
    aff.Ranges.foldlM (rangeBody env addStyling) st
  else pure st

/-- Body of the loop over `group.IDs` inside the loop over the vulnerabilities
(lines 109-138). -/
def idBody (env : Env) (addStyling : Bool) (pkg : PackageVulns) (vuln : Vulnerability)
    (st : FixedState) (vuln_id_from_group : GoString) : Except Panic FixedState :=
  let vuln_id := vuln.ID
  if vuln_id = vuln_id_from_group then
    vuln.Affected.foldlM (affectedBody env addStyling pkg) st
  else pure st

/-- Body of the loop over `vulns` (lines 107-139). -/
def vulnBody (env : Env) (addStyling : Bool) (pkg : PackageVulns) (group : GroupInfo)
    (st : FixedState) (vuln : Vulnerability) : Except Panic FixedState :=
  group.IDs.foldlM (idBody env addStyling pkg vuln) st

/-- Lines 105-139: the final value of `fixedVersions` for one group. -/
def fixedVersionsOf (env : Env) (addStyling : Bool) (pkg : PackageVulns)
    (group : GroupInfo) : Except Panic (List GoString) := do
  let st ← pkg.Vulnerabilities.foldlM (vulnBody env addStyling pkg group)
    ⟨[], StringBoolMap.empty⟩
  pure st.fixedVersions

/-- Lines 90-97: the final value of `links` for one group. -/
def linksOf (env : Env) (addStyling : Bool) (group : GroupInfo) : List GoString :=
  group.IDs.foldl
    (fun links vuln =>
      if addStyling then
        links ++ [env.BaseVulnerabilityURL ++ env.BoldEscapeSeq ++ vuln ++ env.ResetEscapeSeq]
      else links ++ [env.BaseVulnerabilityURL ++ vuln])
    []

/-- Lines 88-145 for a group that is not skipped: the row appended for it. -/
def groupRow (env : Env) (addStyling : Bool) (source : SourceInfo) (pkg : PackageVulns)
    (group : GroupInfo) : Except Panic tbInnerResponse := do
  let outputRow : Row := []
  let links := linksOf env addStyling group
  let outputRow := outputRow ++ [Join links newline]
  let (outputRow, shouldMerge) :=
    if pkg.Package.Ecosystem = GIT then
      (outputRow ++ [GIT, pkg.Package.Version, pkg.Package.Version], true)
    else
      (outputRow ++ [pkg.Package.Ecosystem, pkg.Package.Name, pkg.Package.Version], false)
  let fixedVersions ← fixedVersionsOf env addStyling pkg group
  let outputRow := outputRow ++ [Join fixedVersions newline]
  let outputRow := outputRow ++ [source.Path]
  pure ⟨outputRow, shouldMerge⟩

/-- Body of the loop over `pkg.Groups` (lines 84-146). -/
def groupBody (env : Env) (addStyling calledVulns : Bool) (source : SourceInfo)
    (pkg : PackageVulns) (allOutputRows : List tbInnerResponse) (group : GroupInfo) :
    Except Panic (List tbInnerResponse) :=
  if group.IsCalled ≠ calledVulns then
    pure allOutputRows
  else do
    let r ← groupRow env addStyling source pkg group
    pure (allOutputRows ++ [r])

/-- Lines 75-81: the copy `source` of `sourceRes.Source` with its path simplified
when both the working-directory lookup and `filepath.Rel` succeed. -/
def simplifiedSource (env : Env) (sourceRes : PackageSource) : SourceInfo :=
  let source := sourceRes.Source
  match env.Getwd with
  | some workingDir =>
    match env.Rel workingDir source.Path with
    | some sourcePath => { source with Path := sourcePath }
    | none => source
  | none => source

/-- Body of the loop over `sourceRes.Packages` (lines 74-147). -/
def packageBody (env : Env) (addStyling calledVulns : Bool) (sourceRes : PackageSource)
    (allOutputRows : List tbInnerResponse) (pkg : PackageVulns) :
    Except Panic (List tbInnerResponse) :=
  let source := simplifiedSource env sourceRes
  pkg.Groups.foldlM (groupBody env addStyling calledVulns source pkg) allOutputRows

/-- Body of the loop over `vulnResult.Results` (lines 73-148). -/
def sourceBody (env : Env) (addStyling calledVulns : Bool)
    (allOutputRows : List tbInnerResponse) (sourceRes : PackageSource) :
    Except Panic (List tbInnerResponse) :=
  sourceRes.Packages.foldlM (packageBody env addStyling calledVulns sourceRes) allOutputRows

/-- The function `tableBuilderInner` (lines 69-150). -/
def tableBuilderInner (env : Env) (vulnResult : VulnerabilityResults)
    (addStyling calledVulns : Bool) : Except Panic (List tbInnerResponse) :=
  vulnResult.Results.foldlM (sourceBody env addStyling calledVulns) []

/-! ## The table writer and its two callers -/

/-- The row configuration of the table library (`table.RowConfig`). -/
structure RowConfig where
  AutoMerge : Bool
deriving DecidableEq, Repr

/-- A call made on the table writer (`table.Writer`). -/
inductive TableCall where
  | SetOutputMirror
  | AppendHeader (row : Row)
  | SetStyleRounded
  | SetColorRow
  | SetColorRowAlternate
  | SetDoNotColorBordersAndSeparators
  | SetAllowedRowLength (width : Int)
  | AppendRow (row : Row) (configs : List RowConfig)
  | AppendSeparator
  | Render
deriving DecidableEq, Repr

/-- The table writer: the calls it has received, oldest first. Only `Render` writes
to the output mirror. -/
abbrev Writer := List TableCall

/-- The method `Length` of the writer: the number of rows appended so far (the header
is not a row). -/
def Writer.Length (t : Writer) : Nat :=
  t.countP fun call =>
    match call with
    | .AppendRow _ _ => true
    | _ => false

/-- The call `outputTable.AppendRow(elem.row, table.RowConfig{AutoMerge: elem.shouldMerge})`. -/
def rowCall (elem : tbInnerResponse) : TableCall :=
  .AppendRow elem.row [⟨elem.shouldMerge⟩]

/-- The call `outputTable.AppendRow(table.Row{"Uncalled vulnerabilities"})`. -/
def markerCall : TableCall :=
  .AppendRow [lit "Uncalled vulnerabilities"] []

/-- The loops of lines 44-46 and 57-59. -/
def appendRows (outputTable : Writer) (rows : List tbInnerResponse) : Writer :=
  rows.foldl (fun t elem => t ++ [rowCall elem]) outputTable

/-- The function `tableBuilder` (lines 42-62). -/
def tableBuilder (env : Env) (outputTable : Writer) (vulnResult : VulnerabilityResults)
    (addStyling : Bool) : Except Panic Writer := do
  let rows ← tableBuilderInner env vulnResult addStyling true
  let outputTable := appendRows outputTable rows
  let uncalledRows ← tableBuilderInner env vulnResult addStyling false
  if uncalledRows.length = 0 then
    pure outputTable
  else
    let outputTable := outputTable ++ [TableCall.AppendSeparator]
    let outputTable := outputTable ++ [markerCall]
    let outputTable := outputTable ++ [TableCall.AppendSeparator]
    pure (appendRows outputTable uncalledRows)

/-- The header row of line 22. -/
def headerRow : Row :=
  [lit "OSV URL (ID In Bold)", lit "Ecosystem", lit "Package", lit "Version",
    lit "Fixed Versions", lit "Source"]

/-- The function `PrintTableResults` (lines 19-40): the calls the writer has received
when it returns. -/
def PrintTableResults (env : Env) (vulnResult : VulnerabilityResults) :
    Except Panic Writer := do
  let outputTable : Writer := []
  let outputTable := outputTable ++ [TableCall.SetOutputMirror]
  let outputTable := outputTable ++ [TableCall.AppendHeader headerRow]
  let (outputTable, isTerminal) :=
    match env.GetSize with
    | some width =>
      (outputTable ++ [TableCall.SetStyleRounded, TableCall.SetColorRow,
        TableCall.SetColorRowAlternate, TableCall.SetDoNotColorBordersAndSeparators,
        TableCall.SetAllowedRowLength width], true)
    | none => (outputTable, false)
  let outputTable ← tableBuilder env outputTable vulnResult isTerminal
  if outputTable.Length = 0 then
    pure outputTable
  else
    pure (outputTable ++ [TableCall.Render])

/-! ## Specification-side definitions -/

/-- The groups of partition `c`, each with its source and package, in the nested
input order source, package, group. -/
def selectedGroups (c : Bool) (r : VulnerabilityResults) :
    List (PackageSource × PackageVulns × GroupInfo) :=
  r.Results.flatMap fun sourceRes =>
    sourceRes.Packages.flatMap fun pkg =>
      (pkg.Groups.filter fun group => group.IsCalled == c).map fun group =>
        (sourceRes, pkg, group)

/-- The row built for one selected group. -/
def rowOf (env : Env) (addStyling : Bool) (t : PackageSource × PackageVulns × GroupInfo) :
    Except Panic tbInnerResponse :=
  groupRow env addStyling (simplifiedSource env t.1) t.2.1 t.2.2

/-- The ranges of the affected entries of `vuln` whose (ecosystem, name) equals the
package's, in input order. -/
def matchedRanges (pkg : PackageVulns) (vuln : Vulnerability) : List Range :=
  vuln.Affected.flatMap fun aff =>
    if (aff.Package.Ecosystem, aff.Package.Name) = (pkg.Package.Ecosystem, pkg.Package.Name)
    then aff.Ranges else []

/-- The ranges reached for one group: those matched in the vulnerabilities of the
package whose ID appears in the group, in input order. -/
def reachedRanges (pkg : PackageVulns) (group : GroupInfo) : List Range :=
  pkg.Vulnerabilities.flatMap fun vuln =>
    if vuln.ID ∈ group.IDs then matchedRanges pkg vuln else []

/-- The candidate fixed versions of one group, one per reached range. -/
def candidates (pkg : PackageVulns) (group : GroupInfo) : Except Panic (List GoString) :=
  (reachedRanges pkg group).mapM rangeFixedVersion

/-- Deduplication that keeps the first occurrence of every value, in order. -/
def firstOccurrences : List GoString → List GoString
  | [] => []
  | a :: l => a :: (firstOccurrences l).filter (fun x => x ≠ a)

/-- The values kept after scanning `cs` when `kept` were kept before. -/
def keepFirst (kept cs : List GoString) : List GoString :=
  cs.foldl (fun kept c => if c ∈ kept then kept else kept ++ [c]) kept

/-- The loop state in which the unstyled values `raw` have been kept. -/
def stateOf (env : Env) (addStyling : Bool) (raw : List GoString) : FixedState :=
  ⟨raw.map (styled env addStyling), fun k => if k ∈ raw then some true else none⟩

/-- The row assembled for a group from the final value of `fixedVersions`. -/
def rowWith (env : Env) (addStyling : Bool) (source : SourceInfo) (pkg : PackageVulns)
    (group : GroupInfo) (fixedVersions : List GoString) : tbInnerResponse :=
  if pkg.Package.Ecosystem = GIT then
    ⟨[Join (linksOf env addStyling group) newline, GIT, pkg.Package.Version,
      pkg.Package.Version, Join fixedVersions newline, source.Path], true⟩
  else
    ⟨[Join (linksOf env addStyling group) newline, pkg.Package.Ecosystem, pkg.Package.Name,
      pkg.Package.Version, Join fixedVersions newline, source.Path], false⟩

/-- The number of groups of partition `c`, summed over all packages of all sources. -/
def groupCount (c : Bool) (r : VulnerabilityResults) : Nat :=
  (r.Results.map fun sourceRes =>
    (sourceRes.Packages.map fun pkg =>
      pkg.Groups.countP fun group => group.IsCalled == c).sum).sum

/-- The number of groups, summed over all packages of all sources. -/
def totalGroups (r : VulnerabilityResults) : Nat :=
  (r.Results.map fun sourceRes =>
    (sourceRes.Packages.map fun pkg => pkg.Groups.length).sum).sum

/-- The fixed version shown for a range: the `Fixed` value of its second event, cut to
its first ten bytes when the range type is `"GIT"` (empty when there is no second
event). -/
def shownFixed (rng : Range) : GoString :=
  let fixed := ((rng.Events.get? 1).map fun ev => ev.Fixed).getD []
  if rng.RangeType = GIT then fixed.take 10 else fixed

/-- The source path shown in the last cell: the path relative to the working directory
when the lookup and the relativization both succeed, the path itself otherwise. -/
def displayedPath (env : Env) (path : GoString) : GoString :=
  match env.Getwd with
  | some workingDir => (env.Rel workingDir path).getD path
  | none => path

/-- A range on which lines 120-123 do not panic: it has at least two events and, when its
type is `"GIT"`, the fixed value of its second event has at least ten bytes. -/
def rangeSafe (rng : Range) : Prop :=
  2 ≤ rng.Events.length ∧
    (rng.RangeType = GIT → ∀ ev, rng.Events.get? 1 = some ev → 10 ≤ ev.Fixed.length)

/-- A row without its last cell (the source path): the five other cells and the merge
flag. -/
def withoutPath (row : tbInnerResponse) : tbInnerResponse :=
  ⟨row.row.take 5, row.shouldMerge⟩

/-- The calls `PrintTableResults` makes before it calls `tableBuilder` (lines 20-32). -/
def headerCalls (env : Env) : Writer :=
  match env.GetSize with
  | some width =>
    [TableCall.SetOutputMirror, TableCall.AppendHeader headerRow, TableCall.SetStyleRounded,
      TableCall.SetColorRow, TableCall.SetColorRowAlternate,
      TableCall.SetDoNotColorBordersAndSeparators, TableCall.SetAllowedRowLength width]
  | none => [TableCall.SetOutputMirror, TableCall.AppendHeader headerRow]

/-- The calls `tableBuilder` adds for the called rows `rows` and the uncalled rows
`uncalledRows`. -/
def addedCalls (rows uncalledRows : List tbInnerResponse) : List TableCall :=
  rows.map rowCall ++
    (if uncalledRows = [] then []
     else [TableCall.AppendSeparator, markerCall, TableCall.AppendSeparator]
       ++ uncalledRows.map rowCall)

/-- Whether a byte is a UTF-8 continuation byte (`10xxxxxx`). -/
def isContinuation (b : UInt8) : Bool :=
  decide (128 ≤ b.toNat ∧ b.toNat < 192)

/-- The number of characters of a UTF-8 string: its bytes that are not continuation
bytes, one per character. -/
def charCount (str : GoString) : Nat :=
  str.countP fun b => !isContinuation b

/-- The first `n` characters of a UTF-8 string: the bytes before the start of
character `n + 1`. -/
def takeChars : Nat → GoString → GoString
  | _, [] => []
  | 0, b :: bs => if isContinuation b then b :: takeChars 0 bs else []
  | n + 1, b :: bs =>
    if isContinuation b then b :: takeChars (n + 1) bs else b :: takeChars n bs

/-- The fixed version of a range as the character reading has it: the `Fixed` value of
the second event, cut to its first ten characters when the range type is `"GIT"`. -/
def shownFixedChars (rng : Range) : GoString :=
  let fixed := ((rng.Events.get? 1).map fun ev => ev.Fixed).getD []
  if rng.RangeType = GIT then takeChars 10 fixed else fixed

/-! ## Concrete inputs -/

/-- An environment in which the working directory is unknown and the destination is
not a terminal. -/
def plainEnv : Env :=
  { BaseVulnerabilityURL := lit "https://osv.dev/"
    BoldEscapeSeq := [27] ++ lit "[1m"
    ResetEscapeSeq := [27] ++ lit "[0m"
    Getwd := none
    Rel := fun _ _ => none
    GetSize := none }

/-- The relativization of `workEnv`: the rest of `targ` when `targ` starts with `base`
followed by `/`, and `none` otherwise. It gives what `filepath.Rel` gives at the pair
(`/w`, `/w/go.mod`), the only pair at which the concrete inputs use it; it is not
`filepath.Rel` elsewhere (which also cleans the target and answers with `..` segments
for a target outside `base`). -/
def relBelow (base targ : GoString) : Option GoString :=
  if (base ++ lit "/").isPrefixOf targ then some (targ.drop (base.length + 1)) else none

/-- An environment whose working directory is `/w`, on a terminal 80 columns wide. -/
def workEnv : Env :=
  { plainEnv with Getwd := some (lit "/w"), Rel := relBelow, GetSize := some 80 }

/-- The group of the worked example: the identifier `OSV-1`, called. -/
def workedGroup : GroupInfo := ⟨[lit "OSV-1"], true⟩

/-- The package of the worked example: ecosystem `GIT`, version `abcdef1234567890`, one
advisory `OSV-1` with a matching affected entry whose commit range has the fixed
commit `fedcba0987654321` as its second event. -/
def workedPackage (name : GoString) (first : Event) : PackageVulns :=
  ⟨⟨name, lit "abcdef1234567890", GIT⟩,
    [⟨lit "OSV-1", [⟨⟨GIT, name⟩, [⟨GIT, [first, ⟨[], lit "fedcba0987654321"⟩]⟩]⟩]⟩],
    [workedGroup]⟩

/-- The scan result of the worked example: one source with the package above. -/
def workedExample (source : SourceInfo) (name : GoString) (first : Event) :
    VulnerabilityResults :=
  ⟨[⟨source, [workedPackage name first]⟩]⟩

/-- The source of the concrete inputs. -/
def goMod : SourceInfo := ⟨lit "/w/go.mod", lit "lockfile"⟩

/-- A scan result with a called and an uncalled group: a `GIT` package whose two
commit ranges agree on their first ten bytes, and an npm package whose group repeats
its identifier. -/
def sampleResult : VulnerabilityResults :=
  ⟨[⟨goMod,
      [⟨⟨[], lit "abcdef1234567890", GIT⟩,
        [⟨lit "OSV-1",
          [⟨⟨GIT, []⟩,
            [⟨GIT, [⟨lit "0", []⟩, ⟨[], lit "fedcba0987654321"⟩]⟩,
             ⟨GIT, [⟨lit "0", []⟩, ⟨[], lit "fedcba0987aaaaaa"⟩]⟩]⟩]⟩],
        [⟨[lit "OSV-1"], true⟩]⟩,
       ⟨⟨lit "lodash", lit "4.0.0", lit "npm"⟩,
        [⟨lit "GHSA-1",
          [⟨⟨lit "npm", lit "lodash"⟩,
            [⟨lit "SEMVER", [⟨lit "0", []⟩, ⟨[], lit "4.17.21"⟩]⟩]⟩,
           ⟨⟨lit "npm", lit "underscore"⟩, [⟨lit "SEMVER", []⟩]⟩]⟩],
        [⟨[lit "GHSA-1", lit "GHSA-1"], false⟩]⟩]⟩]⟩

/-- The called rows of `sampleResult` in `plainEnv` without styling. -/
def sampleCalledRows : List tbInnerResponse :=
  [⟨[lit "https://osv.dev/OSV-1", GIT, lit "abcdef1234567890", lit "abcdef1234567890",
      lit "fedcba0987", lit "/w/go.mod"], true⟩]

/-- The uncalled rows of `sampleResult` in `plainEnv` without styling. -/
def sampleUncalledRows : List tbInnerResponse :=
  [⟨[lit "https://osv.dev/GHSA-1" ++ newline ++ lit "https://osv.dev/GHSA-1", lit "npm",
      lit "lodash", lit "4.0.0", lit "4.17.21", lit "/w/go.mod"], false⟩]

/-- A scan result whose only reached range has a single event (no fixed event). -/
def shortRangeResult : VulnerabilityResults :=
  ⟨[⟨goMod,
      [⟨⟨lit "lodash", lit "4.0.0", lit "npm"⟩,
        [⟨lit "GHSA-1",
          [⟨⟨lit "npm", lit "lodash"⟩, [⟨lit "SEMVER", [⟨lit "0", []⟩]⟩]⟩]⟩],
        [⟨[lit "GHSA-1"], true⟩]⟩]⟩]⟩

/-- A scan result with sources and packages and no group. -/
def noGroupResult : VulnerabilityResults :=
  ⟨[⟨goMod, [⟨⟨lit "lodash", lit "4.0.0", lit "npm"⟩, [], []⟩]⟩, ⟨goMod, []⟩]⟩

/-- A scan result whose only affected entry names another package and has a range
without events: nothing matches the package. -/
def unmatchedResult : VulnerabilityResults :=
  ⟨[⟨goMod,
      [⟨⟨lit "lodash", lit "4.0.0", lit "npm"⟩,
        [⟨lit "GHSA-1", [⟨⟨lit "npm", lit "underscore"⟩, [⟨lit "SEMVER", []⟩]⟩]⟩],
        [⟨[lit "GHSA-1"], true⟩, ⟨[], true⟩]⟩]⟩]⟩

/-- The called rows of `unmatchedResult` in `plainEnv` without styling. -/
def unmatchedRows : List tbInnerResponse :=
  [⟨[lit "https://osv.dev/GHSA-1", lit "npm", lit "lodash", lit "4.0.0", [],
      lit "/w/go.mod"], false⟩,
   ⟨[[], lit "npm", lit "lodash", lit "4.0.0", [], lit "/w/go.mod"], false⟩]

/-- The called rows of `sampleResult` in `plainEnv` with styling. -/
def sampleStyledCalledRows : List tbInnerResponse :=
  [⟨[lit "https://osv.dev/" ++ ([27] ++ lit "[1m") ++ lit "OSV-1" ++ ([27] ++ lit "[0m"),
      GIT, lit "abcdef1234567890", lit "abcdef1234567890",
      ([27] ++ lit "[1m") ++ lit "fedcba0987" ++ ([27] ++ lit "[0m"), lit "/w/go.mod"],
    true⟩]

/-- A fixed value of eleven two-byte characters (`é`, bytes `C3 A9`): 22 bytes. -/
def multibyteFixed : GoString :=
  [0xC3, 0xA9, 0xC3, 0xA9, 0xC3, 0xA9, 0xC3, 0xA9, 0xC3, 0xA9, 0xC3, 0xA9,
   0xC3, 0xA9, 0xC3, 0xA9, 0xC3, 0xA9, 0xC3, 0xA9, 0xC3, 0xA9]

/-- The package of the worked example with `multibyteFixed` as the fixed value of its
commit range. -/
def multibytePackage : PackageVulns :=
  ⟨⟨[], lit "abcdef1234567890", GIT⟩,
    [⟨lit "OSV-1", [⟨⟨GIT, []⟩, [⟨GIT, [⟨lit "0", []⟩, ⟨[], multibyteFixed⟩]⟩]⟩]⟩],
    [workedGroup]⟩

/-- A scan result whose only reached range is a `GIT` range with a fixed value of
two-byte characters. -/
def multibyteResult : VulnerabilityResults :=
  ⟨[⟨goMod, [multibytePackage]⟩]⟩

/-- The called rows of `multibyteResult` in `plainEnv` without styling: the
fixed-versions cell holds the first ten bytes, five characters. -/
def multibyteRows : List tbInnerResponse :=
  [⟨[lit "https://osv.dev/OSV-1", GIT, lit "abcdef1234567890", lit "abcdef1234567890",
      [0xC3, 0xA9, 0xC3, 0xA9, 0xC3, 0xA9, 0xC3, 0xA9, 0xC3, 0xA9], lit "/w/go.mod"],
    true⟩]

/-- A scan result whose called group reaches a well-formed range and whose uncalled
group reaches a range with a single event (an advisory without a fix). -/
def partialFailureResult : VulnerabilityResults :=
  ⟨[⟨goMod,
      [⟨⟨lit "lodash", lit "4.0.0", lit "npm"⟩,
        [⟨lit "GHSA-1",
          [⟨⟨lit "npm", lit "lodash"⟩,
            [⟨lit "SEMVER", [⟨lit "0", []⟩, ⟨[], lit "4.17.21"⟩]⟩]⟩]⟩,
         ⟨lit "GHSA-2",
          [⟨⟨lit "npm", lit "lodash"⟩, [⟨lit "SEMVER", [⟨lit "0", []⟩]⟩]⟩]⟩],
        [⟨[lit "GHSA-1"], true⟩, ⟨[lit "GHSA-2"], false⟩]⟩]⟩]⟩

/-- The called rows of `partialFailureResult` in `plainEnv` without styling. -/
def partialFailureCalledRows : List tbInnerResponse :=
  [⟨[lit "https://osv.dev/GHSA-1", lit "npm", lit "lodash", lit "4.0.0", lit "4.17.21",
      lit "/w/go.mod"], false⟩]

/-! ## Traversal lemmas -/

theorem foldlM_eq_mapM_flatMap {α β γ ε : Type} (f : α → List γ) (h : γ → Except ε β)
    (step : List β → α → Except ε (List β))
    (hstep : ∀ acc x, step acc x = ((f x).mapM h).map (fun ys => acc ++ ys))
    (xs : List α) (acc : List β) :
    xs.foldlM step acc = ((xs.flatMap f).mapM h).map (fun ys => acc ++ ys) := by
  induction xs generalizing acc with
  | nil =>
    rw [List.flatMap_nil, List.mapM_nil]
    simp [Except.map, pure, Except.pure]
  | cons x xs ih =>
    rw [List.foldlM_cons, hstep, List.flatMap_cons, List.mapM_append]
    cases hx : (f x).mapM h with
    | error e => simp [Except.map, bind, Except.bind]
    | ok ys =>
      simp only [Except.map, bind, Except.bind, ih]
      cases hxs : (xs.flatMap f).mapM h with
      | error e => simp [Except.map, bind, Except.bind]
      | ok zs => simp [Except.map, bind, Except.bind, pure, Except.pure, List.append_assoc]

theorem groups_flatMap_eq (c : Bool) (sourceRes : PackageSource) (pkg : PackageVulns)
    (gs : List GroupInfo) :
    gs.flatMap (fun group => if group.IsCalled ≠ c then [] else [(sourceRes, pkg, group)])
      = (gs.filter fun group => group.IsCalled == c).map fun group => (sourceRes, pkg, group) := by
  induction gs with
  | nil => rfl
  | cons g gs ih =>
    rw [List.flatMap_cons, ih]
    by_cases hg : g.IsCalled = c <;> simp [List.filter_cons, hg]

theorem groupBody_eq (env : Env) (s c : Bool) (sourceRes : PackageSource) (pkg : PackageVulns)
    (acc : List tbInnerResponse) (group : GroupInfo) :
    groupBody env s c (simplifiedSource env sourceRes) pkg acc group
      = ((if group.IsCalled ≠ c then [] else [(sourceRes, pkg, group)]).mapM (rowOf env s)).map
          (fun ys => acc ++ ys) := by
  unfold groupBody
  by_cases hg : group.IsCalled = c
  · simp only [hg, ne_eq, not_true_eq_false, if_false, List.mapM_cons, List.mapM_nil, rowOf]
    cases groupRow env s (simplifiedSource env sourceRes) pkg group <;>
      simp [Except.map, bind, Except.bind, pure, Except.pure]
  · simp only [ne_eq, hg, not_false_eq_true, if_true, List.mapM_nil]
    simp [Except.map, pure, Except.pure]

theorem tableBuilderInner_eq_mapM (env : Env) (r : VulnerabilityResults) (s c : Bool) :
    tableBuilderInner env r s c = (selectedGroups c r).mapM (rowOf env s) := by
  have hpkg : ∀ (sourceRes : PackageSource) acc (pkg : PackageVulns),
      packageBody env s c sourceRes acc pkg
        = ((((pkg.Groups.filter fun group => group.IsCalled == c).map fun group =>
            (sourceRes, pkg, group))).mapM (rowOf env s)).map (fun ys => acc ++ ys) := by
    intro sourceRes acc pkg
    rw [← groups_flatMap_eq]
    exact foldlM_eq_mapM_flatMap _ _ _ (fun a g => groupBody_eq env s c sourceRes pkg a g) _ _
  have hsrc : ∀ acc (sourceRes : PackageSource),
      sourceBody env s c acc sourceRes
        = ((sourceRes.Packages.flatMap fun pkg =>
            (pkg.Groups.filter fun group => group.IsCalled == c).map fun group =>
              (sourceRes, pkg, group)).mapM (rowOf env s)).map (fun ys => acc ++ ys) := by
    intro acc sourceRes
    exact foldlM_eq_mapM_flatMap _ _ _ (fun a p => hpkg sourceRes a p) _ _
  have h : tableBuilderInner env r s c
      = ((selectedGroups c r).mapM (rowOf env s)).map (fun ys => [] ++ ys) :=
    foldlM_eq_mapM_flatMap _ (rowOf env s) _ hsrc r.Results []
  rw [h]
  cases (selectedGroups c r).mapM (rowOf env s) <;> simp [Except.map]

/-! ## Deduplication lemmas -/

theorem keepFirst_nil (kept : List GoString) : keepFirst kept [] = kept := rfl

theorem keepFirst_cons (kept : List GoString) (c : GoString) (cs : List GoString) :
    keepFirst kept (c :: cs) = keepFirst (if c ∈ kept then kept else kept ++ [c]) cs := rfl

theorem keepFirst_append (kept a b : List GoString) :
    keepFirst kept (a ++ b) = keepFirst (keepFirst kept a) b := by
  simp [keepFirst, List.foldl_append]

theorem mem_keepFirst (kept cs : List GoString) (x : GoString) :
    x ∈ keepFirst kept cs ↔ x ∈ kept ∨ x ∈ cs := by
  induction cs generalizing kept with
  | nil => simp [keepFirst_nil]
  | cons c cs ih =>
    rw [keepFirst_cons, ih]
    by_cases hc : c ∈ kept
    · simp only [hc, if_true, List.mem_cons]
      constructor
      · rintro (h | h)
        · exact Or.inl h
        · exact Or.inr (Or.inr h)
      · rintro (h | h | h)
        · exact Or.inl h
        · exact Or.inl (h ▸ hc)
        · exact Or.inr h
    · simp only [hc, if_false, List.mem_append, List.mem_singleton, List.mem_cons]
      tauto

theorem keepFirst_of_subset (kept cs : List GoString) (h : ∀ x ∈ cs, x ∈ kept) :
    keepFirst kept cs = kept := by
  induction cs with
  | nil => rfl
  | cons c cs ih =>
    rw [keepFirst_cons, if_pos (h c (List.mem_cons_self _ _))]
    exact ih fun x hx => h x (List.mem_cons_of_mem _ hx)

theorem keepFirst_idem (kept cs : List GoString) :
    keepFirst (keepFirst kept cs) cs = keepFirst kept cs :=
  keepFirst_of_subset _ _ fun x hx => (mem_keepFirst kept cs x).2 (Or.inr hx)

theorem keepFirst_eq (kept cs : List GoString) :
    keepFirst kept cs = kept ++ (firstOccurrences cs).filter (fun x => x ∉ kept) := by
  induction cs generalizing kept with
  | nil => simp [keepFirst_nil, firstOccurrences]
  | cons c cs ih =>
    rw [keepFirst_cons, ih, firstOccurrences]
    by_cases hc : c ∈ kept
    · simp only [hc, if_true, List.filter_cons, not_true_eq_false, decide_False,
        List.filter_filter, List.append_cancel_left_eq]
      apply List.filter_congr
      intro x _
      by_cases hx : x ∈ kept
      · simp [hx]
      · have : x ≠ c := fun h => hx (h ▸ hc)
        simp [hx, this]
    · simp only [hc, if_false, List.filter_cons, not_false_eq_true, decide_True, if_true,
        List.filter_filter, List.append_assoc, List.singleton_append, List.append_cancel_left_eq,
        List.cons.injEq, true_and]
      apply List.filter_congr
      intro x _
      simp [List.mem_append, not_or, Bool.and_comm]

theorem keepFirst_nil_left (cs : List GoString) : keepFirst [] cs = firstOccurrences cs := by
  rw [keepFirst_eq]; simp


theorem stateOf_nil (env : Env) (s : Bool) :
    (⟨[], StringBoolMap.empty⟩ : FixedState) = stateOf env s [] := by
  unfold stateOf StringBoolMap.empty
  simp

theorem rangeBody_stateOf (env : Env) (s : Bool) (raw : List GoString) (rng : Range) :
    rangeBody env s (stateOf env s raw) rng
      = ([rng].mapM rangeFixedVersion).map (fun vs => stateOf env s (keepFirst raw vs)) := by
  rw [List.mapM_cons, List.mapM_nil]
  unfold rangeBody
  cases rangeFixedVersion rng with
  | error e => rfl
  | ok v =>
    simp only [bind, Except.bind, pure, Except.pure, Except.map]
    by_cases hv : v ∈ raw
    · simp [stateOf, hv, keepFirst_cons, keepFirst_nil]
    · simp only [stateOf, hv, if_false, Option.isSome_none, Bool.false_eq_true, keepFirst_cons,
        keepFirst_nil, List.map_append, List.map_cons, List.map_nil, Sprintf_v,
        StringBoolMap.set]
      congr 2
      funext x
      unfold StringBoolMap.set
      by_cases hx : x = v
      · simp [hx]
      · simp [hx]

theorem foldlM_stateOf {α : Type} (env : Env) (s : Bool) (f : α → List Range)
    (step : FixedState → α → Except Panic FixedState)
    (hstep : ∀ raw x, step (stateOf env s raw) x
      = ((f x).mapM rangeFixedVersion).map (fun vs => stateOf env s (keepFirst raw vs)))
    (xs : List α) (raw : List GoString) :
    xs.foldlM step (stateOf env s raw)
      = ((xs.flatMap f).mapM rangeFixedVersion).map
          (fun vs => stateOf env s (keepFirst raw vs)) := by
  induction xs generalizing raw with
  | nil =>
    rw [List.flatMap_nil, List.mapM_nil]
    rfl
  | cons x xs ih =>
    rw [List.foldlM_cons, hstep, List.flatMap_cons, List.mapM_append]
    cases hx : (f x).mapM rangeFixedVersion with
    | error e => rfl
    | ok ys =>
      simp only [Except.map, bind, Except.bind, ih]
      cases hxs : (xs.flatMap f).mapM rangeFixedVersion with
      | error e => rfl
      | ok zs => simp [Except.map, pure, Except.pure, keepFirst_append]

theorem mapM_repeats {β : Type} (a : GoString) (R : List Range) (ids : List GoString)
    (raw : List GoString) (g : List GoString → β) :
    ((ids.flatMap fun id => if a = id then R else []).mapM rangeFixedVersion).map
        (fun vs => g (keepFirst raw vs))
      = ((if a ∈ ids then R else []).mapM rangeFixedVersion).map
        (fun vs => g (keepFirst raw vs)) := by
  induction ids generalizing raw with
  | nil => simp
  | cons id ids ih =>
    rw [List.flatMap_cons, List.mapM_append]
    by_cases hid : a = id
    · subst hid
      simp only [if_true, List.mem_cons, true_or]
      cases hR : R.mapM rangeFixedVersion with
      | error e => rfl
      | ok v1 =>
        have h := ih (keepFirst raw v1)
        by_cases hmem : a ∈ ids
        · simp only [hmem, if_true, hR, Except.map, keepFirst_idem] at h
          revert h
          cases (ids.flatMap fun id => if a = id then R else []).mapM rangeFixedVersion <;>
            simp [Except.map, bind, Except.bind, pure, Except.pure, keepFirst_append]
        · simp only [hmem, if_false, List.mapM_nil, pure, Except.pure, Except.map,
            keepFirst_nil] at h
          revert h
          cases (ids.flatMap fun id => if a = id then R else []).mapM rangeFixedVersion <;>
            simp [Except.map, bind, Except.bind, pure, Except.pure, keepFirst_append]
    · have hmem : (a ∈ id :: ids) ↔ a ∈ ids := by simp [hid]
      simp only [hid, if_false, hmem, List.mapM_nil]
      have h := ih raw
      revert h
      cases (ids.flatMap fun id => if a = id then R else []).mapM rangeFixedVersion <;>
        simp [Except.map, bind, Except.bind, pure, Except.pure]

/-! ## The fixed-version loops compute the first occurrences of the candidates -/

theorem affectedBody_stateOf (env : Env) (s : Bool) (pkg : PackageVulns)
    (raw : List GoString) (aff : Affected) :
    affectedBody env s pkg (stateOf env s raw) aff
      = ((if (aff.Package.Ecosystem, aff.Package.Name)
              = (pkg.Package.Ecosystem, pkg.Package.Name)
          then aff.Ranges else []).mapM rangeFixedVersion).map
          (fun vs => stateOf env s (keepFirst raw vs)) := by
  unfold affectedBody
  by_cases hm : pkg.Package.Name = aff.Package.Name ∧
      pkg.Package.Ecosystem = aff.Package.Ecosystem
  · have hm' : (aff.Package.Ecosystem, aff.Package.Name)
        = (pkg.Package.Ecosystem, pkg.Package.Name) := by rw [hm.1, hm.2]
    have h := foldlM_stateOf env s (fun rng : Range => [rng]) (rangeBody env s)
      (rangeBody_stateOf env s) aff.Ranges raw
    simp only [List.flatMap_singleton'] at h
    simp only [Sprintf_v, hm, hm', and_self, if_true]
    exact h
  · have hm' : ¬ (aff.Package.Ecosystem, aff.Package.Name)
        = (pkg.Package.Ecosystem, pkg.Package.Name) := by
      intro h
      exact hm ⟨(congrArg Prod.snd h).symm, (congrArg Prod.fst h).symm⟩
    simp only [Sprintf_v, hm, hm', if_false, List.mapM_nil]
    rfl

theorem vulnBody_stateOf (env : Env) (s : Bool) (pkg : PackageVulns) (group : GroupInfo)
    (raw : List GoString) (vuln : Vulnerability) :
    vulnBody env s pkg group (stateOf env s raw) vuln
      = ((if vuln.ID ∈ group.IDs then matchedRanges pkg vuln else []).mapM
            rangeFixedVersion).map (fun vs => stateOf env s (keepFirst raw vs)) := by
  have hid : ∀ raw id, idBody env s pkg vuln (stateOf env s raw) id
      = ((if vuln.ID = id then matchedRanges pkg vuln else []).mapM rangeFixedVersion).map
          (fun vs => stateOf env s (keepFirst raw vs)) := by
    intro raw id
    unfold idBody
    by_cases h : vuln.ID = id
    · simp only [h, if_true]
      exact foldlM_stateOf env s _ _ (affectedBody_stateOf env s pkg) vuln.Affected raw
    · simp only [h, if_false, List.mapM_nil]
      rfl
  unfold vulnBody
  rw [foldlM_stateOf env s _ _ hid group.IDs raw]
  exact mapM_repeats vuln.ID (matchedRanges pkg vuln) group.IDs raw (stateOf env s)

theorem fixedVersionsOf_eq (env : Env) (s : Bool) (pkg : PackageVulns) (group : GroupInfo) :
    fixedVersionsOf env s pkg group
      = (candidates pkg group).map fun cs => (firstOccurrences cs).map (styled env s) := by
  unfold fixedVersionsOf candidates reachedRanges
  rw [stateOf_nil env s,
    foldlM_stateOf env s _ _ (vulnBody_stateOf env s pkg group) pkg.Vulnerabilities []]
  cases (pkg.Vulnerabilities.flatMap fun vuln =>
      if vuln.ID ∈ group.IDs then matchedRanges pkg vuln else []).mapM rangeFixedVersion with
  | error e => rfl
  | ok cs => simp [Except.map, bind, Except.bind, pure, Except.pure, stateOf, keepFirst_nil_left]

theorem groupRow_eq (env : Env) (s : Bool) (source : SourceInfo) (pkg : PackageVulns)
    (group : GroupInfo) :
    groupRow env s source pkg group
      = (fixedVersionsOf env s pkg group).map (rowWith env s source pkg group) := by
  unfold groupRow rowWith
  cases fixedVersionsOf env s pkg group with
  | error e => rfl
  | ok fvs =>
    by_cases hg : pkg.Package.Ecosystem = GIT <;>
      simp [hg, Except.map, bind, Except.bind, pure, Except.pure]

theorem mapM_ok_iff {α β ε : Type} (f : α → Except ε β) (xs : List α) (ys : List β) :
    xs.mapM f = .ok ys ↔ List.Forall₂ (fun x y => f x = .ok y) xs ys := by
  induction xs generalizing ys with
  | nil =>
    rw [List.mapM_nil]
    constructor
    · intro h
      cases h
      exact List.Forall₂.nil
    · intro h
      cases h
      rfl
  | cons x xs ih =>
    rw [List.mapM_cons]
    cases hx : f x with
    | error e =>
      constructor
      · intro h
        cases h
      · intro h
        cases h with
        | cons h1 _ => rw [hx] at h1; cases h1
    | ok y =>
      cases hxs : xs.mapM f with
      | error e =>
        constructor
        · intro h
          cases h
        · intro h
          cases h with
          | cons h1 h2 =>
            rw [(ih _).2 h2] at hxs
            cases hxs
      | ok zs =>
        constructor
        · intro h
          cases h
          exact List.Forall₂.cons hx ((ih zs).1 hxs)
        · intro h
          cases h with
          | cons h1 h2 =>
            rw [hx] at h1
            cases h1
            have := (ih _).2 h2
            rw [hxs] at this
            cases this
            rfl

/-! ## Rows and their groups -/

theorem rows_forall₂ (env : Env) (r : VulnerabilityResults) (s c : Bool)
    (rows : List tbInnerResponse) (h : tableBuilderInner env r s c = .ok rows) :
    List.Forall₂
      (fun t row => ∃ fvs, fixedVersionsOf env s t.2.1 t.2.2 = .ok fvs ∧
        row = rowWith env s (simplifiedSource env t.1) t.2.1 t.2.2 fvs)
      (selectedGroups c r) rows := by
  rw [tableBuilderInner_eq_mapM, mapM_ok_iff] at h
  refine h.imp ?_
  intro t row ht
  rw [rowOf, groupRow_eq] at ht
  cases hf : fixedVersionsOf env s t.2.1 t.2.2 with
  | error e => rw [hf] at ht; cases ht
  | ok fvs =>
    rw [hf] at ht
    cases ht
    exact ⟨fvs, rfl, rfl⟩

theorem length_selectedGroups (c : Bool) (r : VulnerabilityResults) :
    (selectedGroups c r).length = groupCount c r := by
  have hp : ∀ (sourceRes : PackageSource) (ps : List PackageVulns),
      (ps.flatMap fun pkg =>
        (pkg.Groups.filter fun group => group.IsCalled == c).map fun group =>
          (sourceRes, pkg, group)).length
        = (ps.map fun pkg => pkg.Groups.countP fun group => group.IsCalled == c).sum := by
    intro sourceRes ps
    induction ps with
    | nil => rfl
    | cons p ps ih =>
      rw [List.flatMap_cons, List.length_append, ih, List.length_map, List.map_cons,
        List.sum_cons, List.countP_eq_length_filter]
  unfold selectedGroups groupCount
  induction r.Results with
  | nil => rfl
  | cons x xs ih =>
    rw [List.flatMap_cons, List.length_append, ih, hp, List.map_cons, List.sum_cons]

theorem groupCount_add (r : VulnerabilityResults) :
    groupCount true r + groupCount false r = totalGroups r := by
  have hg : ∀ gs : List GroupInfo,
      gs.countP (fun group => group.IsCalled == true)
        + gs.countP (fun group => group.IsCalled == false) = gs.length := by
    intro gs
    induction gs with
    | nil => rfl
    | cons g gs ih =>
      rw [List.countP_cons, List.countP_cons, List.length_cons]
      cases hgc : g.IsCalled
      · have h1 : (false == true) = false := rfl
        have h2 : (false == false) = true := rfl
        simp only [h1, h2, if_true, Bool.false_eq_true, if_false]
        omega
      · have h1 : (true == true) = true := rfl
        have h2 : (true == false) = false := rfl
        simp only [h1, h2, if_true, Bool.false_eq_true, if_false]
        omega
  have hp : ∀ ps : List PackageVulns,
      (ps.map fun pkg => pkg.Groups.countP fun group => group.IsCalled == true).sum
        + (ps.map fun pkg => pkg.Groups.countP fun group => group.IsCalled == false).sum
        = (ps.map fun pkg => pkg.Groups.length).sum := by
    intro ps
    induction ps with
    | nil => rfl
    | cons p ps ih =>
      simp only [List.map_cons, List.sum_cons]
      have := hg p.Groups
      omega
  unfold groupCount totalGroups
  induction r.Results with
  | nil => rfl
  | cons x xs ih =>
    simp only [List.map_cons, List.sum_cons]
    have := hp x.Packages
    omega

theorem packageBody_no_groups (env : Env) (s c : Bool) (sourceRes : PackageSource)
    (acc : List tbInnerResponse) (pkg : PackageVulns) (h : pkg.Groups = []) :
    packageBody env s c sourceRes acc pkg = .ok acc := by
  unfold packageBody
  rw [h]
  rfl

/-! ## Cells of a row -/

theorem rowWith_cells (env : Env) (s : Bool) (source : SourceInfo) (pkg : PackageVulns)
    (group : GroupInfo) (fvs : List GoString) :
    (rowWith env s source pkg group fvs).row[4]? = some (Join fvs newline) ∧
    (rowWith env s source pkg group fvs).row[5]? = some source.Path ∧
    (rowWith env s source pkg group fvs).row.length = 6 := by
  unfold rowWith
  by_cases hg : pkg.Package.Ecosystem = GIT <;> simp [hg]

theorem rowWith_git (env : Env) (s : Bool) (source : SourceInfo) (pkg : PackageVulns)
    (group : GroupInfo) (fvs : List GoString) (hg : pkg.Package.Ecosystem = GIT) :
    rowWith env s source pkg group fvs
      = ⟨[Join (linksOf env s group) newline, GIT, pkg.Package.Version,
          pkg.Package.Version, Join fvs newline, source.Path], true⟩ := by
  unfold rowWith
  rw [if_pos hg]

theorem simplifiedSource_path (env : Env) (sourceRes : PackageSource) :
    (simplifiedSource env sourceRes).Path = displayedPath env sourceRes.Source.Path := by
  unfold simplifiedSource displayedPath
  cases env.Getwd with
  | none => rfl
  | some wd =>
    simp only
    cases env.Rel wd sourceRes.Source.Path <;> rfl

/-! ## Values kept in the fixed-versions cell -/

theorem styled_injective (env : Env) (s : Bool) : Function.Injective (styled env s) := by
  intro a b h
  unfold styled at h
  cases s with
  | false => simpa using h
  | true =>
    simp only [if_true, List.append_assoc] at h
    exact List.append_cancel_right (List.append_cancel_left h)

theorem mem_firstOccurrences (cs : List GoString) (x : GoString) :
    x ∈ firstOccurrences cs ↔ x ∈ cs := by
  rw [← keepFirst_nil_left, mem_keepFirst]
  simp

theorem firstOccurrences_nodup (cs : List GoString) : (firstOccurrences cs).Nodup := by
  induction cs with
  | nil => exact List.nodup_nil
  | cons a l ih =>
    rw [firstOccurrences, List.nodup_cons]
    refine ⟨?_, ih.filter _⟩
    intro h
    simpa using (List.mem_filter.1 h).2

theorem rangeFixedVersion_ok (rng : Range) (v : GoString)
    (h : rangeFixedVersion rng = .ok v) :
    v = shownFixed rng ∧ ∃ ev, rng.Events.get? 1 = some ev ∧
      (rng.RangeType = GIT → 10 ≤ ev.Fixed.length ∧ v = ev.Fixed.take 10) ∧
      (rng.RangeType ≠ GIT → v = ev.Fixed) := by
  unfold rangeFixedVersion at h
  unfold shownFixed
  cases hev : rng.Events.get? 1 with
  | none => simp only [hev] at h; cases h
  | some ev =>
    simp only [hev] at h
    by_cases hg : rng.RangeType = GIT
    · by_cases hl : 10 ≤ ev.Fixed.length
      · simp only [hg, hl, if_true] at h
        cases h
        simp [hg, hl]
      · simp only [hg, hl, if_true, if_false] at h
        cases h
    · simp only [hg, if_false] at h
      cases h
      simp [hg]

theorem forall₂_mem_left {α β : Type} {R : α → β → Prop} {xs : List α} {ys : List β}
    (h : List.Forall₂ R xs ys) {x : α} (hx : x ∈ xs) : ∃ y ∈ ys, R x y := by
  induction h with
  | nil => cases hx
  | cons hab _ ih =>
    rcases List.mem_cons.1 hx with rfl | hx'
    · exact ⟨_, List.mem_cons_self _ _, hab⟩
    · obtain ⟨y, hy, hr⟩ := ih hx'
      exact ⟨y, List.mem_cons_of_mem _ hy, hr⟩

theorem mapM_rangeFixedVersion_ok (R : List Range) (cs : List GoString)
    (h : R.mapM rangeFixedVersion = .ok cs) : cs = R.map shownFixed := by
  rw [mapM_ok_iff] at h
  induction h with
  | nil => rfl
  | cons hab _ ih =>
    rw [List.map_cons, ← ih, ← (rangeFixedVersion_ok _ _ hab).1]

theorem fixedVersionsOf_ok (env : Env) (s : Bool) (pkg : PackageVulns) (group : GroupInfo)
    (fvs : List GoString) (h : fixedVersionsOf env s pkg group = .ok fvs) :
    candidates pkg group = .ok ((reachedRanges pkg group).map shownFixed) ∧
    fvs = (firstOccurrences ((reachedRanges pkg group).map shownFixed)).map (styled env s) := by
  rw [fixedVersionsOf_eq] at h
  cases hc : candidates pkg group with
  | error e => rw [hc] at h; cases h
  | ok cs =>
    rw [hc] at h
    cases h
    have := mapM_rangeFixedVersion_ok _ _ hc
    subst this
    exact ⟨rfl, rfl⟩

/-! ## The table assembly and the worked example -/

theorem appendRows_eq (t : Writer) (rows : List tbInnerResponse) :
    appendRows t rows = t ++ rows.map rowCall := by
  unfold appendRows
  induction rows generalizing t with
  | nil => simp
  | cons x xs ih => rw [List.foldl_cons, ih]; simp

theorem markerCall_not_mem (rows : List tbInnerResponse) :
    markerCall ∉ rows.map rowCall := by
  intro h
  obtain ⟨elem, _, he⟩ := List.mem_map.1 h
  unfold rowCall markerCall at he
  injection he with _ hcfg
  cases hcfg

theorem selectedGroups_of_no_group (c : Bool) (r : VulnerabilityResults)
    (h : totalGroups r = 0) : selectedGroups c r = [] := by
  apply List.eq_nil_of_length_eq_zero
  rw [length_selectedGroups]
  have := groupCount_add r
  cases c <;> omega

theorem tableBuilderInner_of_no_group (env : Env) (r : VulnerabilityResults) (s c : Bool)
    (h : totalGroups r = 0) : tableBuilderInner env r s c = .ok [] := by
  rw [tableBuilderInner_eq_mapM, selectedGroups_of_no_group c r h]
  rfl

theorem tableBuilder_eq (env : Env) (t : Writer) (r : VulnerabilityResults) (s : Bool)
    (rows uncalledRows : List tbInnerResponse)
    (hc : tableBuilderInner env r s true = .ok rows)
    (hu : tableBuilderInner env r s false = .ok uncalledRows) :
    tableBuilder env t r s
      = .ok (t ++ (rows.map rowCall ++
          if uncalledRows = [] then []
          else [TableCall.AppendSeparator, markerCall, TableCall.AppendSeparator]
            ++ uncalledRows.map rowCall)) := by
  unfold tableBuilder
  rw [hc, hu]
  by_cases he : uncalledRows = []
  · subst he
    simp [bind, Except.bind, pure, Except.pure, appendRows_eq]
  · have hl : ¬ uncalledRows.length = 0 := fun h0 => he (List.eq_nil_of_length_eq_zero h0)
    simp [bind, Except.bind, pure, Except.pure, appendRows_eq, he, hl]

theorem fixedVersionsOf_workedExample (env : Env) (name : GoString) (first : Event) :
    fixedVersionsOf env false (workedPackage name first) workedGroup
      = .ok [lit "fedcba0987"] := by
  rw [fixedVersionsOf_eq]
  have hr : reachedRanges (workedPackage name first) workedGroup
      = [⟨GIT, [first, ⟨[], lit "fedcba0987654321"⟩]⟩] := by
    simp [reachedRanges, matchedRanges, workedPackage, workedGroup]
  unfold candidates
  rw [hr]
  rfl

theorem rowOf_workedExample (env : Env) (source : SourceInfo) (name : GoString)
    (first : Event) :
    rowOf env false (⟨source, [workedPackage name first]⟩, workedPackage name first,
        workedGroup)
      = .ok ⟨[env.BaseVulnerabilityURL ++ lit "OSV-1", GIT, lit "abcdef1234567890",
          lit "abcdef1234567890", lit "fedcba0987", displayedPath env source.Path], true⟩ := by
  show groupRow env false (simplifiedSource env ⟨source, [workedPackage name first]⟩)
    (workedPackage name first) workedGroup = _
  rw [groupRow_eq, fixedVersionsOf_workedExample]
  show Except.ok (rowWith env false _ (workedPackage name first) workedGroup _) = _
  rw [rowWith_git _ _ _ _ _ _ rfl, simplifiedSource_path]
  rfl

/-! ## Links, membership and safety lemmas -/

theorem linksOf_eq (env : Env) (s : Bool) (group : GroupInfo) :
    linksOf env s group = group.IDs.map fun id =>
      if s then env.BaseVulnerabilityURL ++ env.BoldEscapeSeq ++ id ++ env.ResetEscapeSeq
      else env.BaseVulnerabilityURL ++ id := by
  unfold linksOf
  have h : ∀ (ids : List GoString) (acc : List GoString),
      ids.foldl (fun links vuln =>
          if s then
            links ++ [env.BaseVulnerabilityURL ++ env.BoldEscapeSeq ++ vuln
              ++ env.ResetEscapeSeq]
          else links ++ [env.BaseVulnerabilityURL ++ vuln]) acc
        = acc ++ ids.map fun id =>
          if s then env.BaseVulnerabilityURL ++ env.BoldEscapeSeq ++ id ++ env.ResetEscapeSeq
          else env.BaseVulnerabilityURL ++ id := by
    intro ids
    induction ids with
    | nil => intro acc; simp
    | cons id ids ih =>
      intro acc
      rw [List.foldl_cons, ih]
      cases s <;> simp
  simpa using h group.IDs []

theorem rowWith_not_git (env : Env) (s : Bool) (source : SourceInfo) (pkg : PackageVulns)
    (group : GroupInfo) (fvs : List GoString) (hg : pkg.Package.Ecosystem ≠ GIT) :
    rowWith env s source pkg group fvs
      = ⟨[Join (linksOf env s group) newline, pkg.Package.Ecosystem, pkg.Package.Name,
          pkg.Package.Version, Join fvs newline, source.Path], false⟩ := by
  unfold rowWith
  rw [if_neg hg]

theorem rowWith_link (env : Env) (s : Bool) (source : SourceInfo) (pkg : PackageVulns)
    (group : GroupInfo) (fvs : List GoString) :
    (rowWith env s source pkg group fvs).row[0]? = some (Join (linksOf env s group) newline) := by
  unfold rowWith
  by_cases hg : pkg.Package.Ecosystem = GIT <;> simp [hg]

theorem mem_selectedGroups (c : Bool) (r : VulnerabilityResults)
    (t : PackageSource × PackageVulns × GroupInfo) :
    t ∈ selectedGroups c r ↔
      t.1 ∈ r.Results ∧ t.2.1 ∈ t.1.Packages ∧ t.2.2 ∈ t.2.1.Groups ∧ t.2.2.IsCalled = c := by
  obtain ⟨src, pkg, group⟩ := t
  unfold selectedGroups
  simp only [List.mem_flatMap, List.mem_map, List.mem_filter, beq_iff_eq, Prod.mk.injEq]
  constructor
  · rintro ⟨src', hs, pkg', hp, group', ⟨hg, hc⟩, rfl, rfl, rfl⟩
    exact ⟨hs, hp, hg, hc⟩
  · rintro ⟨hs, hp, hg, hc⟩
    exact ⟨src, hs, pkg, hp, group, ⟨hg, hc⟩, rfl, rfl, rfl⟩

theorem mem_reachedRanges (pkg : PackageVulns) (group : GroupInfo) (rng : Range) :
    rng ∈ reachedRanges pkg group ↔
      ∃ vuln ∈ pkg.Vulnerabilities, vuln.ID ∈ group.IDs ∧
        ∃ aff ∈ vuln.Affected,
          (aff.Package.Ecosystem, aff.Package.Name)
            = (pkg.Package.Ecosystem, pkg.Package.Name) ∧ rng ∈ aff.Ranges := by
  unfold reachedRanges matchedRanges
  simp only [List.mem_flatMap]
  constructor
  · rintro ⟨vuln, hv, h⟩
    by_cases hid : vuln.ID ∈ group.IDs
    · rw [if_pos hid, List.mem_flatMap] at h
      obtain ⟨aff, ha, h⟩ := h
      by_cases hm : (aff.Package.Ecosystem, aff.Package.Name)
          = (pkg.Package.Ecosystem, pkg.Package.Name)
      · rw [if_pos hm] at h
        exact ⟨vuln, hv, hid, aff, ha, hm, h⟩
      · rw [if_neg hm] at h
        cases h
    · rw [if_neg hid] at h
      cases h
  · rintro ⟨vuln, hv, hid, aff, ha, hm, h⟩
    refine ⟨vuln, hv, ?_⟩
    rw [if_pos hid, List.mem_flatMap]
    exact ⟨aff, ha, by rw [if_pos hm]; exact h⟩

theorem rangeFixedVersion_ok_iff (rng : Range) :
    (∃ v, rangeFixedVersion rng = .ok v) ↔ rangeSafe rng := by
  unfold rangeSafe
  constructor
  · rintro ⟨v, hv⟩
    obtain ⟨_, ev, hev, hgit, _⟩ := rangeFixedVersion_ok rng v hv
    refine ⟨?_, ?_⟩
    · by_contra hlt
      have : rng.Events.get? 1 = none := List.get?_eq_none.2 (by omega)
      rw [this] at hev
      cases hev
    · intro hg ev' hev'
      rw [hev] at hev'
      cases hev'
      exact (hgit hg).1
  · rintro ⟨hlen, hgit⟩
    unfold rangeFixedVersion
    cases hev : rng.Events.get? 1 with
    | none =>
      have := List.get?_eq_none.1 hev
      omega
    | some ev =>
      by_cases hg : rng.RangeType = GIT
      · have := hgit hg ev hev
        exact ⟨ev.Fixed.take 10, by simp only [hev, hg, this, if_true]⟩
      · exact ⟨ev.Fixed, by simp only [hev, hg, if_false]⟩

theorem mapM_ok_iff_forall {α β ε : Type} (f : α → Except ε β) (xs : List α) :
    (∃ ys, xs.mapM f = .ok ys) ↔ ∀ x ∈ xs, ∃ y, f x = .ok y := by
  induction xs with
  | nil =>
    rw [List.mapM_nil]
    exact ⟨fun _ a ha => (by cases ha), fun _ => ⟨[], rfl⟩⟩
  | cons x xs ih =>
    rw [List.mapM_cons]
    constructor
    · rintro ⟨ys, h⟩
      cases hx : f x with
      | error e => rw [hx] at h; cases h
      | ok y =>
        cases hxs : xs.mapM f with
        | error e => rw [hx, hxs] at h; cases h
        | ok zs =>
          intro a ha
          rcases List.mem_cons.1 ha with rfl | ha'
          · exact ⟨y, hx⟩
          · exact (ih.1 ⟨zs, hxs⟩) a ha'
    · intro h
      obtain ⟨y, hy⟩ := h x (List.mem_cons_self _ _)
      obtain ⟨zs, hzs⟩ := ih.2 fun a ha => h a (List.mem_cons_of_mem _ ha)
      exact ⟨y :: zs, by rw [hy, hzs]; rfl⟩

theorem fixedVersionsOf_ok_iff (env : Env) (s : Bool) (pkg : PackageVulns)
    (group : GroupInfo) :
    (∃ fvs, fixedVersionsOf env s pkg group = .ok fvs) ↔
      ∀ rng ∈ reachedRanges pkg group, rangeSafe rng := by
  rw [fixedVersionsOf_eq]
  have hc : (∃ cs, candidates pkg group = .ok cs) ↔
      ∀ rng ∈ reachedRanges pkg group, rangeSafe rng := by
    unfold candidates
    rw [mapM_ok_iff_forall]
    exact forall₂_congr fun rng _ => rangeFixedVersion_ok_iff rng
  rw [← hc]
  cases candidates pkg group with
  | error e => simp [Except.map]
  | ok cs => simp [Except.map]

theorem rowOf_ok_iff (env : Env) (s : Bool) (t : PackageSource × PackageVulns × GroupInfo) :
    (∃ row, rowOf env s t = .ok row) ↔ ∀ rng ∈ reachedRanges t.2.1 t.2.2, rangeSafe rng := by
  rw [← fixedVersionsOf_ok_iff env s, rowOf, groupRow_eq]
  cases fixedVersionsOf env s t.2.1 t.2.2 with
  | error e => simp [Except.map]
  | ok cs => simp [Except.map]

theorem tableBuilderInner_ok_iff (env : Env) (r : VulnerabilityResults) (s c : Bool) :
    (∃ rows, tableBuilderInner env r s c = .ok rows) ↔
      ∀ t ∈ selectedGroups c r, ∀ rng ∈ reachedRanges t.2.1 t.2.2, rangeSafe rng := by
  rw [tableBuilderInner_eq_mapM, mapM_ok_iff_forall]
  exact forall₂_congr fun t _ => rowOf_ok_iff env s t

theorem reachedRanges_of_unmatched (pkg : PackageVulns) (group : GroupInfo)
    (h : ∀ vuln ∈ pkg.Vulnerabilities, vuln.ID ∈ group.IDs → ∀ aff ∈ vuln.Affected,
      (aff.Package.Ecosystem, aff.Package.Name)
        ≠ (pkg.Package.Ecosystem, pkg.Package.Name)) :
    reachedRanges pkg group = [] := by
  apply List.eq_nil_iff_forall_not_mem.2
  intro rng hrng
  obtain ⟨vuln, hv, hid, aff, ha, hm, _⟩ := (mem_reachedRanges pkg group rng).1 hrng
  exact h vuln hv hid aff ha hm

theorem fixedVersionsOf_of_no_range (env : Env) (s : Bool) (pkg : PackageVulns)
    (group : GroupInfo) (h : reachedRanges pkg group = []) :
    fixedVersionsOf env s pkg group = .ok [] := by
  rw [fixedVersionsOf_eq]
  unfold candidates
  rw [h]
  rfl

theorem reachedRanges_of_no_id (pkg : PackageVulns) (group : GroupInfo)
    (h : group.IDs = []) : reachedRanges pkg group = [] := by
  apply List.eq_nil_iff_forall_not_mem.2
  intro rng hrng
  obtain ⟨vuln, _, hid, _⟩ := (mem_reachedRanges pkg group rng).1 hrng
  rw [h] at hid
  cases hid

/-! ## Environments, styling and rendering -/

theorem mapM_map_congr {α β γ ε : Type} (f f' : α → Except ε β) (g : β → γ)
    (h : ∀ x, (f x).map g = (f' x).map g) (xs : List α) :
    (xs.mapM f).map (List.map g) = (xs.mapM f').map (List.map g) := by
  induction xs with
  | nil => rw [List.mapM_nil, List.mapM_nil]
  | cons x xs ih =>
    rw [List.mapM_cons, List.mapM_cons]
    have hx := h x
    revert hx ih
    cases f x <;> cases f' x <;> cases xs.mapM f <;> cases xs.mapM f' <;>
      simp [Except.map, bind, Except.bind, pure, Except.pure] <;> intros <;> simp_all

theorem rowOf_withoutPath (env env' : Env) (s : Bool)
    (hB : env'.BaseVulnerabilityURL = env.BaseVulnerabilityURL)
    (hb : env'.BoldEscapeSeq = env.BoldEscapeSeq)
    (hr : env'.ResetEscapeSeq = env.ResetEscapeSeq)
    (t : PackageSource × PackageVulns × GroupInfo) :
    (rowOf env s t).map withoutPath = (rowOf env' s t).map withoutPath := by
  have hst : styled env' s = styled env s := by
    funext v
    unfold styled
    rw [hb, hr]
  have hl : linksOf env' s t.2.2 = linksOf env s t.2.2 := by
    rw [linksOf_eq, linksOf_eq, hB, hb, hr]
  have hf : fixedVersionsOf env' s t.2.1 t.2.2 = fixedVersionsOf env s t.2.1 t.2.2 := by
    rw [fixedVersionsOf_eq, fixedVersionsOf_eq, hst]
  rw [rowOf, rowOf, groupRow_eq, groupRow_eq, hf]
  cases fixedVersionsOf env s t.2.1 t.2.2 with
  | error e => rfl
  | ok fvs =>
    simp only [Except.map, withoutPath, rowWith, hl]
    by_cases hg : t.2.1.Package.Ecosystem = GIT <;> simp [hg]

theorem forall₂_zip {α β γ : Type} {R : α → β → Prop} {Q : α → γ → Prop}
    {xs : List α} {bs : List β} {cs : List γ}
    (h1 : List.Forall₂ R xs bs) (h2 : List.Forall₂ Q xs cs) :
    List.Forall₂ (fun x p => R x p.1 ∧ Q x p.2) xs (bs.zip cs) := by
  induction h1 generalizing cs with
  | nil =>
    cases h2
    exact List.Forall₂.nil
  | cons hab _ ih =>
    cases h2 with
    | cons hac hrest => exact List.Forall₂.cons ⟨hab, hac⟩ (ih hrest)

theorem forall₂_pair {α β γ : Type} {R : α → β → Prop} {Q : α → γ → Prop}
    {xs : List α} {bs : List β} {cs : List γ}
    (h1 : List.Forall₂ R xs bs) (h2 : List.Forall₂ Q xs cs) :
    List.Forall₂ (fun b c => ∃ x, R x b ∧ Q x c) bs cs := by
  induction h1 generalizing cs with
  | nil =>
    cases h2
    exact List.Forall₂.nil
  | cons hab _ ih =>
    cases h2 with
    | cons hac hrest => exact List.Forall₂.cons ⟨_, hab, hac⟩ (ih hrest)

theorem length_append_calls (t a : Writer) :
    Writer.Length (t ++ a) = Writer.Length t + Writer.Length a := by
  unfold Writer.Length
  exact List.countP_append _ _ _

theorem length_rowCalls (rows : List tbInnerResponse) :
    Writer.Length (rows.map rowCall) = rows.length := by
  unfold Writer.Length
  induction rows with
  | nil => rfl
  | cons x xs ih =>
    rw [List.map_cons, List.countP_cons, ih]
    rfl

theorem length_addedCalls (rows uncalledRows : List tbInnerResponse) :
    Writer.Length (addedCalls rows uncalledRows)
      = rows.length + (if uncalledRows = [] then 0 else 1 + uncalledRows.length) := by
  unfold addedCalls
  rw [length_append_calls, length_rowCalls]
  by_cases he : uncalledRows = []
  · simp only [he, if_true]
    rfl
  · simp only [he, if_false]
    rw [length_append_calls, length_rowCalls]
    have : Writer.Length [TableCall.AppendSeparator, markerCall, TableCall.AppendSeparator]
        = 1 := rfl
    rw [this]

theorem render_not_mem_addedCalls (rows uncalledRows : List tbInnerResponse) :
    TableCall.Render ∉ addedCalls rows uncalledRows := by
  have hr : ∀ rs : List tbInnerResponse, TableCall.Render ∉ rs.map rowCall := by
    intro rs h
    obtain ⟨elem, _, he⟩ := List.mem_map.1 h
    unfold rowCall at he
    cases he
  unfold addedCalls
  intro h
  rcases List.mem_append.1 h with h | h
  · exact hr rows h
  · by_cases he : uncalledRows = []
    · rw [if_pos he] at h
      cases h
    · rw [if_neg he] at h
      rcases List.mem_append.1 h with h | h
      · revert h
        unfold markerCall
        decide
      · exact hr uncalledRows h

theorem headerCalls_facts (env : Env) :
    Writer.Length (headerCalls env) = 0 ∧ TableCall.Render ∉ headerCalls env := by
  unfold headerCalls
  cases env.GetSize with
  | none => exact ⟨rfl, by decide⟩
  | some width => exact ⟨rfl, by simp⟩

theorem PrintTableResults_eq (env : Env) (r : VulnerabilityResults)
    (rows uncalledRows : List tbInnerResponse)
    (hc : tableBuilderInner env r env.GetSize.isSome true = .ok rows)
    (hu : tableBuilderInner env r env.GetSize.isSome false = .ok uncalledRows) :
    PrintTableResults env r
      = .ok (if Writer.Length (headerCalls env ++ addedCalls rows uncalledRows) = 0
          then headerCalls env ++ addedCalls rows uncalledRows
          else headerCalls env ++ addedCalls rows uncalledRows ++ [TableCall.Render]) := by
  have hp : PrintTableResults env r
      = (tableBuilder env (headerCalls env) r env.GetSize.isSome >>= fun w =>
          if Writer.Length w = 0 then pure w else pure (w ++ [TableCall.Render])) := by
    unfold PrintTableResults headerCalls
    cases env.GetSize <;> rfl
  rw [hp, tableBuilder_eq env _ r _ rows uncalledRows hc hu]
  show (if Writer.Length (headerCalls env ++ addedCalls rows uncalledRows) = 0
      then Except.ok (headerCalls env ++ addedCalls rows uncalledRows)
      else Except.ok (headerCalls env ++ addedCalls rows uncalledRows ++ [TableCall.Render]))
    = _
  split <;> rfl

/-! ## Claims -/

/-- C1: when `tableBuilderInner` returns, the number of rows of partition `c` is the
number of groups whose called flag is `c`, summed over all packages of all sources; the
rows of the two partitions together are as many as the groups; and the loop body of a
package with no group leaves the rows unchanged. -/
theorem tableBuilderInner_row_count (env : Env) (r : VulnerabilityResults) (s c : Bool)
    (rows : List tbInnerResponse) (h : tableBuilderInner env r s c = .ok rows) :
    rows.length = groupCount c r ∧
    (∀ others, tableBuilderInner env r s (!c) = .ok others →
      rows.length + others.length = totalGroups r) ∧
    (∀ sourceRes acc pkg, pkg.Groups = [] →
      packageBody env s c sourceRes acc pkg = .ok acc) := by
  have hlen : ∀ c' rows', tableBuilderInner env r s c' = .ok rows' →
      rows'.length = groupCount c' r := by
    intro c' rows' h'
    rw [← length_selectedGroups]
    exact (rows_forall₂ env r s c' rows' h').length_eq.symm
  refine ⟨hlen c rows h, ?_, ?_⟩
  · intro others ho
    rw [hlen c rows h, hlen (!c) others ho, ← groupCount_add r]
    cases c
    · exact Nat.add_comm _ _
    · rfl
  · intro sourceRes acc pkg hp
    exact packageBody_no_groups env s c sourceRes acc pkg hp

/-- Witness of C1 on `sampleResult`: one called row for one called group. -/
theorem tableBuilderInner_row_count_witness :
    tableBuilderInner plainEnv sampleResult false true = .ok sampleCalledRows ∧
    sampleCalledRows.length = groupCount true sampleResult ∧
    (∀ others, tableBuilderInner plainEnv sampleResult false (!true) = .ok others →
      sampleCalledRows.length + others.length = totalGroups sampleResult) ∧
    (∀ sourceRes acc pkg, pkg.Groups = [] →
      packageBody plainEnv false true sourceRes acc pkg = .ok acc) :=
  ⟨rfl, tableBuilderInner_row_count plainEnv sampleResult false true sampleCalledRows rfl⟩

/-- C2: every row returned by `tableBuilderInner` for a group of a package whose
ecosystem is `"GIT"` has the literal `"GIT"` in cell 1, the package version in both
cell 2 and cell 3, and the merge flag set. -/
theorem git_package_row (env : Env) (r : VulnerabilityResults) (s c : Bool)
    (rows : List tbInnerResponse) (h : tableBuilderInner env r s c = .ok rows) :
    List.Forall₂
      (fun t row => t.2.1.Package.Ecosystem = GIT →
        row.row[1]? = some GIT ∧
        row.row[2]? = some t.2.1.Package.Version ∧
        row.row[3]? = some t.2.1.Package.Version ∧
        row.row[2]? = row.row[3]? ∧
        row.shouldMerge = true)
      (selectedGroups c r) rows := by
  refine (rows_forall₂ env r s c rows h).imp ?_
  rintro t row ⟨fvs, _, hrow⟩ hg
  rw [hrow, rowWith_git env s _ _ _ fvs hg]
  simp

/-- Witness of C2 on `sampleResult`, whose called row comes from a `GIT` package. -/
theorem git_package_row_witness :
    tableBuilderInner plainEnv sampleResult false true = .ok sampleCalledRows ∧
    List.Forall₂
      (fun t row => t.2.1.Package.Ecosystem = GIT →
        row.row[1]? = some GIT ∧
        row.row[2]? = some t.2.1.Package.Version ∧
        row.row[3]? = some t.2.1.Package.Version ∧
        row.row[2]? = row.row[3]? ∧
        row.shouldMerge = true)
      (selectedGroups true sampleResult) sampleCalledRows :=
  ⟨rfl, git_package_row plainEnv sampleResult false true sampleCalledRows rfl⟩

/-- C3: for every row returned by `tableBuilderInner`, the list `fixedVersions` that is
joined into cell 4 has no two equal elements. -/
theorem fixed_versions_nodup (env : Env) (r : VulnerabilityResults) (s c : Bool)
    (rows : List tbInnerResponse) (h : tableBuilderInner env r s c = .ok rows) :
    List.Forall₂
      (fun t row => ∃ fvs, fixedVersionsOf env s t.2.1 t.2.2 = .ok fvs ∧
        row.row[4]? = some (Join fvs newline) ∧ fvs.Nodup)
      (selectedGroups c r) rows := by
  refine (rows_forall₂ env r s c rows h).imp ?_
  rintro t row ⟨fvs, hf, hrow⟩
  refine ⟨fvs, hf, ?_, ?_⟩
  · rw [hrow]
    exact (rowWith_cells env s _ _ _ fvs).1
  · rw [(fixedVersionsOf_ok env s _ _ fvs hf).2]
    exact (firstOccurrences_nodup _).map (styled_injective env s)

/-- Witness of C3 on `sampleResult`, whose two commit ranges give the same value. -/
theorem fixed_versions_nodup_witness :
    tableBuilderInner plainEnv sampleResult false true = .ok sampleCalledRows ∧
    List.Forall₂
      (fun t row => ∃ fvs, fixedVersionsOf plainEnv false t.2.1 t.2.2 = .ok fvs ∧
        row.row[4]? = some (Join fvs newline) ∧ fvs.Nodup)
      (selectedGroups true sampleResult) sampleCalledRows :=
  ⟨rfl, fixed_versions_nodup plainEnv sampleResult false true sampleCalledRows rfl⟩

/-- C4, as amended: for every row returned by `tableBuilderInner` and every range of
type `"GIT"` of an affected entry matching the package, inside a vulnerability whose
ID is in the group, the range has a second event, the first ten bytes of that event's
fixed value are exactly ten bytes long, and that ten-byte value (between the bold and
reset escape sequences when styling is on) is one of the values joined into cell 4. -/
theorem git_fixed_version_truncated (env : Env) (r : VulnerabilityResults) (s c : Bool)
    (rows : List tbInnerResponse) (h : tableBuilderInner env r s c = .ok rows) :
    List.Forall₂
      (fun t row => ∃ fvs, fixedVersionsOf env s t.2.1 t.2.2 = .ok fvs ∧
        row.row[4]? = some (Join fvs newline) ∧
        ∀ vuln ∈ t.2.1.Vulnerabilities, vuln.ID ∈ t.2.2.IDs → ∀ aff ∈ vuln.Affected,
          (aff.Package.Ecosystem, aff.Package.Name)
            = (t.2.1.Package.Ecosystem, t.2.1.Package.Name) →
          ∀ rng ∈ aff.Ranges, rng.RangeType = GIT →
            ∃ ev, rng.Events.get? 1 = some ev ∧
              (ev.Fixed.take 10).length = 10 ∧
              (if s then env.BoldEscapeSeq ++ ev.Fixed.take 10 ++ env.ResetEscapeSeq
                else ev.Fixed.take 10) ∈ fvs)
      (selectedGroups c r) rows := by
  refine (rows_forall₂ env r s c rows h).imp ?_
  rintro t row ⟨fvs, hf, hrow⟩
  refine ⟨fvs, hf, ?_, ?_⟩
  · rw [hrow]
    exact (rowWith_cells env s _ _ _ fvs).1
  · intro vuln hvuln hid aff haff hm rng hr hg
    have hrng : rng ∈ reachedRanges t.2.1 t.2.2 :=
      (mem_reachedRanges _ _ rng).2 ⟨vuln, hvuln, hid, aff, haff, hm, hr⟩
    obtain ⟨hc, hfvs⟩ := fixedVersionsOf_ok env s _ _ fvs hf
    unfold candidates at hc
    obtain ⟨v, hv, hrv⟩ := forall₂_mem_left ((mapM_ok_iff _ _ _).1 hc) hrng
    obtain ⟨_, ev, hev, hgit, _⟩ := rangeFixedVersion_ok rng v hrv
    obtain ⟨hlen, hveq⟩ := hgit hg
    refine ⟨ev, hev, ?_, ?_⟩
    · rw [List.length_take]
      omega
    · have hmem : styled env s (ev.Fixed.take 10) ∈ fvs := by
        rw [hfvs, ← hveq]
        exact List.mem_map_of_mem _ ((mem_firstOccurrences _ _).2 hv)
      exact hmem

/-- Witness of C4 on `sampleResult` with styling on: the called group reaches two `GIT`
ranges, and the row is the one written out in `sampleStyledCalledRows`. -/
theorem git_fixed_version_truncated_witness :
    tableBuilderInner plainEnv sampleResult true true = .ok sampleStyledCalledRows ∧
    List.Forall₂
      (fun t row => ∃ fvs, fixedVersionsOf plainEnv true t.2.1 t.2.2 = .ok fvs ∧
        row.row[4]? = some (Join fvs newline) ∧
        ∀ vuln ∈ t.2.1.Vulnerabilities, vuln.ID ∈ t.2.2.IDs → ∀ aff ∈ vuln.Affected,
          (aff.Package.Ecosystem, aff.Package.Name)
            = (t.2.1.Package.Ecosystem, t.2.1.Package.Name) →
          ∀ rng ∈ aff.Ranges, rng.RangeType = GIT →
            ∃ ev, rng.Events.get? 1 = some ev ∧
              (ev.Fixed.take 10).length = 10 ∧
              (if true then
                  plainEnv.BoldEscapeSeq ++ ev.Fixed.take 10 ++ plainEnv.ResetEscapeSeq
                else ev.Fixed.take 10) ∈ fvs)
      (selectedGroups true sampleResult) sampleStyledCalledRows :=
  ⟨rfl,
    git_fixed_version_truncated plainEnv sampleResult true true sampleStyledCalledRows rfl⟩

/-- Counterexample to C4 as stated: for a `GIT` range whose fixed value is eleven
two-byte characters the row is returned with the first ten bytes in cell 4; these are
not the first ten characters of the fixed value and they are five characters long. -/
theorem git_fixed_version_not_ten_characters :
    tableBuilderInner plainEnv multibyteResult false true
      = .ok [⟨[lit "https://osv.dev/OSV-1", GIT, lit "abcdef1234567890",
          lit "abcdef1234567890", multibyteFixed.take 10, lit "/w/go.mod"], true⟩] ∧
    multibyteFixed.take 10 ≠ takeChars 10 multibyteFixed ∧
    charCount (takeChars 10 multibyteFixed) = 10 ∧
    charCount (multibyteFixed.take 10) = 5 :=
  ⟨rfl, by decide, by decide, by decide⟩

/-- C5: on `shortRangeResult`, whose only reached range has one event, the index
expression `evnt[1]` panics: `tableBuilderInner` returns no rows and
`PrintTableResults` does not complete. -/
theorem short_range_panics :
    tableBuilderInner plainEnv shortRangeResult false true
      = .error (.indexOutOfRange 1 1) ∧
    PrintTableResults plainEnv shortRangeResult = .error (.indexOutOfRange 1 1) :=
  ⟨rfl, rfl⟩

/-- C6: on `partialFailureResult` the called partition gives one row and the uncalled
partition panics at `evnt[1]` on a range with one event, so `tableBuilder` does not
complete: it never appends the separator, the marker row or an uncalled row although
there is an uncalled group; on `shortRangeResult` it fails before any row is appended.
On every scan result for which both partitions return, `tableBuilder` returns the
table extended by one `AppendRow` per called row in order, with `AutoMerge` equal to
the merge flag of the row, followed, exactly when there is an uncalled row, by a
separator, the one-cell row `Uncalled vulnerabilities`, a separator and one
`AppendRow` per uncalled row in order; the marker row then occurs once among the added
calls, and not at all when there is no uncalled row. -/
theorem tableBuilder_calls :
    (tableBuilderInner plainEnv partialFailureResult false true
        = .ok partialFailureCalledRows ∧
      tableBuilderInner plainEnv partialFailureResult false false
        = .error (.indexOutOfRange 1 1) ∧
      tableBuilder plainEnv [] partialFailureResult false
        = .error (.indexOutOfRange 1 1) ∧
      tableBuilder plainEnv [] shortRangeResult false = .error (.indexOutOfRange 1 1)) ∧
    (∀ (env : Env) (t : Writer) (r : VulnerabilityResults) (s : Bool)
      (rows uncalledRows : List tbInnerResponse),
      tableBuilderInner env r s true = .ok rows →
      tableBuilderInner env r s false = .ok uncalledRows →
      ∃ added, tableBuilder env t r s = .ok (t ++ added) ∧
        added = (rows.map fun elem => TableCall.AppendRow elem.row [⟨elem.shouldMerge⟩]) ++
          (if uncalledRows = [] then []
           else [TableCall.AppendSeparator,
               TableCall.AppendRow [lit "Uncalled vulnerabilities"] [],
               TableCall.AppendSeparator]
             ++ uncalledRows.map fun elem =>
               TableCall.AppendRow elem.row [⟨elem.shouldMerge⟩]) ∧
        added.count (TableCall.AppendRow [lit "Uncalled vulnerabilities"] [])
          = (if uncalledRows = [] then 0 else 1)) := by
  refine ⟨⟨rfl, rfl, rfl, rfl⟩, ?_⟩
  intro env t r s rows uncalledRows hc hu
  refine ⟨_, tableBuilder_eq env t r s rows uncalledRows hc hu, rfl, ?_⟩
  have h1 := List.count_eq_zero.2 (markerCall_not_mem rows)
  have h2 := List.count_eq_zero.2 (markerCall_not_mem uncalledRows)
  show List.count markerCall (rows.map rowCall ++
      (if uncalledRows = [] then []
       else [TableCall.AppendSeparator, markerCall, TableCall.AppendSeparator]
         ++ uncalledRows.map rowCall)) = _
  by_cases he : uncalledRows = []
  · simp only [he, if_true, List.append_nil]
    exact h1
  · simp only [he, if_false, List.count_append, h1, h2, List.count_cons, List.count_nil]
    decide

/-- C7: on a scan result with no group at all, both partitions are empty,
`tableBuilder` returns the table as it received it, and `PrintTableResults` returns a
writer of length 0 that never received `Render`. -/
theorem no_group_no_output (env : Env) (t : Writer) (r : VulnerabilityResults) (s : Bool)
    (h : totalGroups r = 0) :
    tableBuilderInner env r s true = .ok [] ∧
    tableBuilderInner env r s false = .ok [] ∧
    tableBuilder env t r s = .ok t ∧
    ∃ w, PrintTableResults env r = .ok w ∧ w.Length = 0 ∧ TableCall.Render ∉ w := by
  have hb : ∀ t' s', tableBuilder env t' r s' = .ok t' := by
    intro t' s'
    have := tableBuilder_eq env t' r s' [] [] (tableBuilderInner_of_no_group env r s' true h)
      (tableBuilderInner_of_no_group env r s' false h)
    simpa using this
  refine ⟨tableBuilderInner_of_no_group env r s true h,
    tableBuilderInner_of_no_group env r s false h, hb t s, ?_⟩
  unfold PrintTableResults
  cases env.GetSize with
  | none =>
    simp only [hb, bind, Except.bind]
    exact ⟨_, rfl, rfl, by decide⟩
  | some width =>
    simp only [hb, bind, Except.bind]
    refine ⟨_, rfl, rfl, ?_⟩
    simp

/-- Witness of C7 on `noGroupResult`, which has two sources, one package and no group. -/
theorem no_group_no_output_witness :
    totalGroups noGroupResult = 0 ∧
    tableBuilderInner workEnv noGroupResult true true = .ok [] ∧
    tableBuilderInner workEnv noGroupResult true false = .ok [] ∧
    tableBuilder workEnv [] noGroupResult true = .ok [] ∧
    ∃ w, PrintTableResults workEnv noGroupResult = .ok w ∧ w.Length = 0 ∧
      TableCall.Render ∉ w :=
  ⟨rfl, no_group_no_output workEnv [] noGroupResult true rfl⟩

/-- C8: `tableBuilderInner` is the order-preserving traversal of the groups of the
requested partition, in the nested order source, package, group, building one row per
group; in particular the i-th row returned is the row of the i-th such group. -/
theorem tableBuilderInner_order (env : Env) (r : VulnerabilityResults) (s c : Bool) :
    tableBuilderInner env r s c = (selectedGroups c r).mapM (rowOf env s) ∧
    ∀ rows, tableBuilderInner env r s c = .ok rows →
      List.Forall₂ (fun t row => rowOf env s t = .ok row) (selectedGroups c r) rows := by
  refine ⟨tableBuilderInner_eq_mapM env r s c, ?_⟩
  intro rows h
  rw [tableBuilderInner_eq_mapM, mapM_ok_iff] at h
  exact h

/-- C9, as amended: in every environment the worked example gives exactly one called
row, with the link `BaseVulnerabilityURL ++ "OSV-1"`, ecosystem `GIT`, the version in
the name and version cells, the fixed-versions cell `fedcba0987`, the displayed source
path in the last cell and the merge flag set; the uncalled partition is empty; and the
displayed path is the path as given when the working-directory lookup or the
relativization fails, and the relative path when both succeed. -/
theorem worked_example_row (env : Env) (source : SourceInfo) (name : GoString)
    (first : Event) :
    tableBuilderInner env (workedExample source name first) false true
      = .ok [⟨[env.BaseVulnerabilityURL ++ lit "OSV-1", GIT, lit "abcdef1234567890",
          lit "abcdef1234567890", lit "fedcba0987", displayedPath env source.Path], true⟩] ∧
    tableBuilderInner env (workedExample source name first) false false = .ok [] ∧
    (env.Getwd = none → displayedPath env source.Path = source.Path) ∧
    (∀ workingDir, env.Getwd = some workingDir → env.Rel workingDir source.Path = none →
      displayedPath env source.Path = source.Path) ∧
    (∀ workingDir sourcePath, env.Getwd = some workingDir →
      env.Rel workingDir source.Path = some sourcePath →
      displayedPath env source.Path = sourcePath) := by
  refine ⟨?_, ?_, ?_, ?_, ?_⟩
  · rw [tableBuilderInner_eq_mapM]
    have hs : selectedGroups true (workedExample source name first)
        = [(⟨source, [workedPackage name first]⟩, workedPackage name first, workedGroup)] :=
      rfl
    rw [hs, List.mapM_cons, List.mapM_nil, rowOf_workedExample]
    rfl
  · rfl
  · intro h
    unfold displayedPath
    rw [h]
  · intro workingDir h hrel
    unfold displayedPath
    rw [h]
    simp only [hrel, Option.getD_none]
  · intro workingDir sourcePath h hrel
    unfold displayedPath
    rw [h]
    simp only [hrel, Option.getD_some]

/-- Counterexample to C9 as stated: with working directory `/w` and source path
`/w/go.mod` the last cell of the row is `go.mod`, not the source path as given. -/
theorem worked_example_path_not_as_given :
    tableBuilderInner workEnv (workedExample goMod [] ⟨lit "0", []⟩) false true
      ≠ .ok [⟨[workEnv.BaseVulnerabilityURL ++ lit "OSV-1", GIT, lit "abcdef1234567890",
          lit "abcdef1234567890", lit "fedcba0987", goMod.Path], true⟩] := by
  intro h
  have h' : tableBuilderInner workEnv (workedExample goMod [] ⟨lit "0", []⟩) false true
      = .ok [⟨[workEnv.BaseVulnerabilityURL ++ lit "OSV-1", GIT, lit "abcdef1234567890",
          lit "abcdef1234567890", lit "fedcba0987", lit "go.mod"], true⟩] := rfl
  rw [h'] at h
  exact absurd (List.cons.inj (Except.ok.inj h)).1 (by decide)

/-- C10, as amended: for every row returned by `tableBuilderInner`, cell 4 is the
newline-join of the first occurrences, in order, of the values shown for the ranges
reached for the group in input order, where the value shown for a range is the fixed
value of its second event, cut to its first ten bytes when the range type is `"GIT"`;
with styling on every kept value stands between the bold and the reset escape
sequence; the list joined is this list whenever the loops complete, and two groups
with the same identifiers up to repetition and order get the same list. -/
theorem fixed_versions_cell (env : Env) (r : VulnerabilityResults) (s c : Bool)
    (rows : List tbInnerResponse) (h : tableBuilderInner env r s c = .ok rows) :
    List.Forall₂
      (fun t row => row.row[4]? = some (Join
        ((firstOccurrences ((reachedRanges t.2.1 t.2.2).map shownFixed)).map fun v =>
          if s then env.BoldEscapeSeq ++ v ++ env.ResetEscapeSeq else v)
        newline))
      (selectedGroups c r) rows ∧
    (∀ pkg group fvs, fixedVersionsOf env s pkg group = .ok fvs →
      fvs = (firstOccurrences ((reachedRanges pkg group).map shownFixed)).map fun v =>
        if s then env.BoldEscapeSeq ++ v ++ env.ResetEscapeSeq else v) ∧
    (∀ pkg (group other : GroupInfo), (∀ id, id ∈ group.IDs ↔ id ∈ other.IDs) →
      fixedVersionsOf env s pkg group = fixedVersionsOf env s pkg other) := by
  have hst : styled env s
      = fun v => if s then env.BoldEscapeSeq ++ v ++ env.ResetEscapeSeq else v := rfl
  refine ⟨?_, ?_, ?_⟩
  · refine (rows_forall₂ env r s c rows h).imp ?_
    rintro t row ⟨fvs, hf, hrow⟩
    rw [hrow, (rowWith_cells env s _ _ _ fvs).1, (fixedVersionsOf_ok env s _ _ fvs hf).2,
      hst]
  · intro pkg group fvs hf
    rw [← hst]
    exact (fixedVersionsOf_ok env s pkg group fvs hf).2
  · intro pkg group other hids
    rw [fixedVersionsOf_eq, fixedVersionsOf_eq]
    have hr : reachedRanges pkg group = reachedRanges pkg other := by
      unfold reachedRanges
      congr 1
      funext vuln
      simp only [hids]
    unfold candidates
    rw [hr]

/-- Witness of C10 on `sampleResult` with styling on: the two commit ranges of the
called group agree on their first ten bytes and give the one styled value of
`sampleStyledCalledRows`. -/
theorem fixed_versions_cell_witness :
    tableBuilderInner plainEnv sampleResult true true = .ok sampleStyledCalledRows ∧
    (List.Forall₂
      (fun t row => row.row[4]? = some (Join
        ((firstOccurrences ((reachedRanges t.2.1 t.2.2).map shownFixed)).map fun v =>
          if true then plainEnv.BoldEscapeSeq ++ v ++ plainEnv.ResetEscapeSeq else v)
        newline))
      (selectedGroups true sampleResult) sampleStyledCalledRows ∧
    (∀ pkg group fvs, fixedVersionsOf plainEnv true pkg group = .ok fvs →
      fvs = (firstOccurrences ((reachedRanges pkg group).map shownFixed)).map fun v =>
        if true then plainEnv.BoldEscapeSeq ++ v ++ plainEnv.ResetEscapeSeq else v) ∧
    (∀ pkg (group other : GroupInfo), (∀ id, id ∈ group.IDs ↔ id ∈ other.IDs) →
      fixedVersionsOf plainEnv true pkg group = fixedVersionsOf plainEnv true pkg other)) :=
  ⟨rfl, fixed_versions_cell plainEnv sampleResult true true sampleStyledCalledRows rfl⟩

/-- Counterexample to C10 as stated: on `multibyteResult` the fixed-versions cell is
not the join of the first occurrences of the candidates cut to their first ten
characters; it is the first ten bytes of the fixed value, half as long. -/
theorem fixed_versions_cell_not_characters :
    tableBuilderInner plainEnv multibyteResult false true = .ok multibyteRows ∧
    (multibyteRows.map fun row => row.row[4]?)
      ≠ [some (Join
          (firstOccurrences ((reachedRanges multibytePackage workedGroup).map
            shownFixedChars))
          newline)] ∧
    (multibyteRows.map fun row => row.row[4]?) = [some (multibyteFixed.take 10)] :=
  ⟨rfl, by decide, by decide⟩

/-- C11: for every row returned by `tableBuilderInner`, cell 0 is the newline-join, in
the order of the identifiers of the group, of `BaseVulnerabilityURL ++ id` without
styling and of `BaseVulnerabilityURL ++ bold ++ id ++ reset` with styling; and a group
with no identifier always gets a row, whose link cell is the empty string. -/
theorem link_cell (env : Env) (r : VulnerabilityResults) (s c : Bool)
    (rows : List tbInnerResponse) (h : tableBuilderInner env r s c = .ok rows) :
    List.Forall₂
      (fun t row => row.row[0]? = some (Join
        (t.2.2.IDs.map fun id =>
          if s then env.BaseVulnerabilityURL ++ env.BoldEscapeSeq ++ id ++ env.ResetEscapeSeq
          else env.BaseVulnerabilityURL ++ id)
        newline))
      (selectedGroups c r) rows ∧
    (∀ source pkg group, group.IDs = [] →
      ∃ row, groupRow env s source pkg group = .ok row ∧ row.row[0]? = some []) := by
  refine ⟨?_, ?_⟩
  · refine (rows_forall₂ env r s c rows h).imp ?_
    rintro t row ⟨fvs, _, hrow⟩
    rw [hrow, rowWith_link, linksOf_eq]
  · intro source pkg group hids
    refine ⟨rowWith env s source pkg group [], ?_, ?_⟩
    · rw [groupRow_eq,
        fixedVersionsOf_of_no_range env s pkg group (reachedRanges_of_no_id pkg group hids)]
      rfl
    · rw [rowWith_link, linksOf_eq, hids]
      rfl

/-- Witness of C11 on `sampleResult`, whose uncalled group has two identifiers. -/
theorem link_cell_witness :
    tableBuilderInner plainEnv sampleResult false false = .ok sampleUncalledRows ∧
    (List.Forall₂
      (fun t row => row.row[0]? = some (Join
        (t.2.2.IDs.map fun id =>
          if false then
            plainEnv.BaseVulnerabilityURL ++ plainEnv.BoldEscapeSeq ++ id
              ++ plainEnv.ResetEscapeSeq
          else plainEnv.BaseVulnerabilityURL ++ id)
        newline))
      (selectedGroups false sampleResult) sampleUncalledRows ∧
    (∀ source pkg group, group.IDs = [] →
      ∃ row, groupRow plainEnv false source pkg group = .ok row ∧ row.row[0]? = some [])) :=
  ⟨rfl, link_cell plainEnv sampleResult false false sampleUncalledRows rfl⟩

/-- C12: every row returned by `tableBuilderInner` for a group of a package whose
ecosystem is not `"GIT"` has the ecosystem, the name and the version of the package in
cells 1, 2 and 3 and the merge flag unset; for every row the merge flag is set exactly
when the ecosystem of the package is `"GIT"`. -/
theorem other_package_row (env : Env) (r : VulnerabilityResults) (s c : Bool)
    (rows : List tbInnerResponse) (h : tableBuilderInner env r s c = .ok rows) :
    List.Forall₂
      (fun t row =>
        (t.2.1.Package.Ecosystem ≠ GIT →
          row.row[1]? = some t.2.1.Package.Ecosystem ∧
          row.row[2]? = some t.2.1.Package.Name ∧
          row.row[3]? = some t.2.1.Package.Version ∧
          row.shouldMerge = false) ∧
        (row.shouldMerge = true ↔ t.2.1.Package.Ecosystem = GIT))
      (selectedGroups c r) rows := by
  refine (rows_forall₂ env r s c rows h).imp ?_
  rintro t row ⟨fvs, _, hrow⟩
  by_cases hg : t.2.1.Package.Ecosystem = GIT
  · rw [hrow, rowWith_git env s _ _ _ fvs hg]
    exact ⟨fun hne => absurd hg hne, ⟨fun _ => hg, fun _ => rfl⟩⟩
  · rw [hrow, rowWith_not_git env s _ _ _ fvs hg]
    refine ⟨fun _ => ⟨rfl, rfl, rfl, rfl⟩, ⟨fun hm => ?_, fun hg' => absurd hg' hg⟩⟩
    cases hm

/-- Witness of C12 on `sampleResult`, whose uncalled row comes from an npm package. -/
theorem other_package_row_witness :
    tableBuilderInner plainEnv sampleResult false false = .ok sampleUncalledRows ∧
    List.Forall₂
      (fun t row =>
        (t.2.1.Package.Ecosystem ≠ GIT →
          row.row[1]? = some t.2.1.Package.Ecosystem ∧
          row.row[2]? = some t.2.1.Package.Name ∧
          row.row[3]? = some t.2.1.Package.Version ∧
          row.shouldMerge = false) ∧
        (row.shouldMerge = true ↔ t.2.1.Package.Ecosystem = GIT))
      (selectedGroups false sampleResult) sampleUncalledRows :=
  ⟨rfl, other_package_row plainEnv sampleResult false false sampleUncalledRows rfl⟩

/-- C13: for every row returned by `tableBuilderInner`, if no vulnerability of the
package whose ID is in the group has an affected entry with the (ecosystem, name) of
the package, cell 4 is the empty string; and for such a group the row is always
produced. -/
theorem unmatched_fixed_cell_empty (env : Env) (r : VulnerabilityResults) (s c : Bool)
    (rows : List tbInnerResponse) (h : tableBuilderInner env r s c = .ok rows) :
    List.Forall₂
      (fun t row =>
        (∀ vuln ∈ t.2.1.Vulnerabilities, vuln.ID ∈ t.2.2.IDs → ∀ aff ∈ vuln.Affected,
          (aff.Package.Ecosystem, aff.Package.Name)
            ≠ (t.2.1.Package.Ecosystem, t.2.1.Package.Name)) →
        row.row[4]? = some [])
      (selectedGroups c r) rows ∧
    (∀ source (pkg : PackageVulns) (group : GroupInfo),
      (∀ vuln ∈ pkg.Vulnerabilities, vuln.ID ∈ group.IDs → ∀ aff ∈ vuln.Affected,
        (aff.Package.Ecosystem, aff.Package.Name)
          ≠ (pkg.Package.Ecosystem, pkg.Package.Name)) →
      ∃ row, groupRow env s source pkg group = .ok row ∧ row.row[4]? = some []) := by
  refine ⟨?_, ?_⟩
  · refine (rows_forall₂ env r s c rows h).imp ?_
    rintro t row ⟨fvs, hf, hrow⟩ hno
    rw [fixedVersionsOf_of_no_range env s _ _ (reachedRanges_of_unmatched _ _ hno)] at hf
    cases hf
    rw [hrow, (rowWith_cells env s _ _ _ []).1]
    rfl
  · intro source pkg group hno
    refine ⟨rowWith env s source pkg group [], ?_, ?_⟩
    · rw [groupRow_eq,
        fixedVersionsOf_of_no_range env s pkg group (reachedRanges_of_unmatched _ _ hno)]
      rfl
    · rw [(rowWith_cells env s _ _ _ []).1]
      rfl

/-- Witness of C13 on `unmatchedResult`, whose affected entry names another package. -/
theorem unmatched_fixed_cell_empty_witness :
    tableBuilderInner plainEnv unmatchedResult false true = .ok unmatchedRows ∧
    (List.Forall₂
      (fun t row =>
        (∀ vuln ∈ t.2.1.Vulnerabilities, vuln.ID ∈ t.2.2.IDs → ∀ aff ∈ vuln.Affected,
          (aff.Package.Ecosystem, aff.Package.Name)
            ≠ (t.2.1.Package.Ecosystem, t.2.1.Package.Name)) →
        row.row[4]? = some [])
      (selectedGroups true unmatchedResult) unmatchedRows ∧
    (∀ source (pkg : PackageVulns) (group : GroupInfo),
      (∀ vuln ∈ pkg.Vulnerabilities, vuln.ID ∈ group.IDs → ∀ aff ∈ vuln.Affected,
        (aff.Package.Ecosystem, aff.Package.Name)
          ≠ (pkg.Package.Ecosystem, pkg.Package.Name)) →
      ∃ row, groupRow plainEnv false source pkg group = .ok row ∧
        row.row[4]? = some [])) :=
  ⟨rfl, unmatched_fixed_cell_empty plainEnv unmatchedResult false true unmatchedRows rfl⟩

/-- C14: the last cell of every returned row is the displayed source path, which is
the path relative to the working directory when the lookup and the relativization both
succeed and the original path when either fails; and two environments that differ only
in the working-directory lookup and the relativization give the same outcome (the same
failure, or the same number of rows with the same other cells and merge flags). -/
theorem path_simplification_soft (env env' : Env) (r : VulnerabilityResults) (s c : Bool)
    (hB : env'.BaseVulnerabilityURL = env.BaseVulnerabilityURL)
    (hb : env'.BoldEscapeSeq = env.BoldEscapeSeq)
    (hr : env'.ResetEscapeSeq = env.ResetEscapeSeq) :
    (∀ rows, tableBuilderInner env r s c = .ok rows →
      List.Forall₂
        (fun t row => row.row[5]? = some (displayedPath env t.1.Source.Path))
        (selectedGroups c r) rows) ∧
    (∀ path,
      (env.Getwd = none → displayedPath env path = path) ∧
      (∀ workingDir, env.Getwd = some workingDir → env.Rel workingDir path = none →
        displayedPath env path = path) ∧
      (∀ workingDir sourcePath, env.Getwd = some workingDir →
        env.Rel workingDir path = some sourcePath → displayedPath env path = sourcePath)) ∧
    (tableBuilderInner env r s c).map (List.map withoutPath)
      = (tableBuilderInner env' r s c).map (List.map withoutPath) := by
  refine ⟨?_, ?_, ?_⟩
  · intro rows h
    refine (rows_forall₂ env r s c rows h).imp ?_
    rintro t row ⟨fvs, _, hrow⟩
    rw [hrow, (rowWith_cells env s _ _ _ fvs).2.1, simplifiedSource_path]
  · intro path
    unfold displayedPath
    refine ⟨?_, ?_, ?_⟩
    · intro h
      rw [h]
    · intro workingDir h hrel
      rw [h]
      simp only [hrel, Option.getD_none]
    · intro workingDir sourcePath h hrel
      rw [h]
      simp only [hrel, Option.getD_some]
  · rw [tableBuilderInner_eq_mapM, tableBuilderInner_eq_mapM]
    exact mapM_map_congr _ _ _ (rowOf_withoutPath env env' s hB hb hr) _

/-- Witness of C14: `plainEnv`, where the working directory is unknown, against
`workEnv`, where the path `/w/go.mod` is simplified to `go.mod`. -/
theorem path_simplification_soft_witness :
    tableBuilderInner plainEnv sampleResult false true = .ok sampleCalledRows ∧
    (tableBuilderInner plainEnv sampleResult false true).map (List.map withoutPath)
      = (tableBuilderInner workEnv sampleResult false true).map (List.map withoutPath) :=
  ⟨rfl, (path_simplification_soft plainEnv workEnv sampleResult false true rfl rfl rfl).2.2⟩

/-- C15: `tableBuilderInner` returns its rows, for the partition `c` and either styling,
exactly when every range of an affected entry matching the (ecosystem, name) of the
package, inside a vulnerability whose ID is in a group of that package with called
flag `c`, has at least two events and, when its type is `"GIT"`, a fixed value of at
least ten bytes in its second event; in particular it returns when every range of the
scan result is such. -/
theorem safety_precondition (env : Env) (r : VulnerabilityResults) (s c : Bool) :
    ((∃ rows, tableBuilderInner env r s c = .ok rows) ↔
      ∀ sourceRes ∈ r.Results, ∀ pkg ∈ sourceRes.Packages, ∀ group ∈ pkg.Groups,
        group.IsCalled = c →
        ∀ vuln ∈ pkg.Vulnerabilities, vuln.ID ∈ group.IDs → ∀ aff ∈ vuln.Affected,
          (aff.Package.Ecosystem, aff.Package.Name)
            = (pkg.Package.Ecosystem, pkg.Package.Name) →
          ∀ rng ∈ aff.Ranges, rangeSafe rng) ∧
    ((∀ sourceRes ∈ r.Results, ∀ pkg ∈ sourceRes.Packages,
        ∀ vuln ∈ pkg.Vulnerabilities, ∀ aff ∈ vuln.Affected, ∀ rng ∈ aff.Ranges,
          rangeSafe rng) →
      ∃ rows, tableBuilderInner env r s c = .ok rows) := by
  have hiff : (∃ rows, tableBuilderInner env r s c = .ok rows) ↔
      ∀ sourceRes ∈ r.Results, ∀ pkg ∈ sourceRes.Packages, ∀ group ∈ pkg.Groups,
        group.IsCalled = c →
        ∀ vuln ∈ pkg.Vulnerabilities, vuln.ID ∈ group.IDs → ∀ aff ∈ vuln.Affected,
          (aff.Package.Ecosystem, aff.Package.Name)
            = (pkg.Package.Ecosystem, pkg.Package.Name) →
          ∀ rng ∈ aff.Ranges, rangeSafe rng := by
    rw [tableBuilderInner_ok_iff]
    constructor
    · intro h sourceRes hs pkg hp group hg hc vuln hv hid aff ha hm rng hrng
      exact h (sourceRes, pkg, group) ((mem_selectedGroups c r _).2 ⟨hs, hp, hg, hc⟩) rng
        ((mem_reachedRanges pkg group rng).2 ⟨vuln, hv, hid, aff, ha, hm, hrng⟩)
    · intro h t ht rng hrng
      obtain ⟨hs, hp, hg, hc⟩ := (mem_selectedGroups c r t).1 ht
      obtain ⟨vuln, hv, hid, aff, ha, hm, hr⟩ := (mem_reachedRanges _ _ rng).1 hrng
      exact h t.1 hs t.2.1 hp t.2.2 hg hc vuln hv hid aff ha hm rng hr
  refine ⟨hiff, ?_⟩
  intro hall
  refine hiff.2 ?_
  intro sourceRes hs pkg hp group _ _ vuln hv _ aff ha _ rng hrng
  exact hall sourceRes hs pkg hp vuln hv aff ha rng hrng

/-- C16: every row returned by `tableBuilderInner` has exactly six cells, as many as
the header row, and they are in the order of the headers: the link cell, the
ecosystem, the package name, the version, the fixed versions and the source path. -/
theorem row_has_six_cells (env : Env) (r : VulnerabilityResults) (s c : Bool)
    (rows : List tbInnerResponse) (h : tableBuilderInner env r s c = .ok rows) :
    (∀ row ∈ rows, row.row.length = 6) ∧
    headerRow.length = 6 ∧
    List.Forall₂
      (fun t row => ∃ fvs, fixedVersionsOf env s t.2.1 t.2.2 = .ok fvs ∧
        row.row =
          [Join (linksOf env s t.2.2) newline,
           if t.2.1.Package.Ecosystem = GIT then GIT else t.2.1.Package.Ecosystem,
           if t.2.1.Package.Ecosystem = GIT then t.2.1.Package.Version
             else t.2.1.Package.Name,
           t.2.1.Package.Version,
           Join fvs newline,
           displayedPath env t.1.Source.Path])
      (selectedGroups c r) rows := by
  have hall := rows_forall₂ env r s c rows h
  refine ⟨?_, rfl, ?_⟩
  · intro row hrow
    obtain ⟨t, _, fvs, _, hr⟩ := forall₂_mem_left hall.flip hrow
    rw [hr]
    exact (rowWith_cells env s _ _ _ fvs).2.2
  · refine hall.imp ?_
    rintro t row ⟨fvs, hf, hrow⟩
    refine ⟨fvs, hf, ?_⟩
    rw [hrow, ← simplifiedSource_path]
    unfold rowWith
    by_cases hg : t.2.1.Package.Ecosystem = GIT <;> simp [hg]

/-- Witness of C16 on `sampleResult`. -/
theorem row_has_six_cells_witness :
    tableBuilderInner plainEnv sampleResult true true = .ok sampleStyledCalledRows ∧
    (∀ row ∈ sampleStyledCalledRows, row.row.length = 6) ∧
    headerRow.length = 6 :=
  ⟨rfl, (row_has_six_cells plainEnv sampleResult true true sampleStyledCalledRows rfl).1,
    (row_has_six_cells plainEnv sampleResult true true sampleStyledCalledRows rfl).2.1⟩

/-- C17: when `tableBuilderInner` returns with styling on and with styling off, the two
results have the same number of rows and, row by row, equal merge flags and equal
ecosystem, name, version and source cells; the link cell and the fixed-versions cell
with styling are those without styling with every identifier, respectively every kept
fixed value, wrapped in the bold and reset escape sequences; and whether the function
returns does not depend on styling. -/
theorem styling_only_adds_markup (env : Env) (r : VulnerabilityResults) (c : Bool)
    (styledRows plainRows : List tbInnerResponse)
    (hs : tableBuilderInner env r true c = .ok styledRows)
    (hp : tableBuilderInner env r false c = .ok plainRows) :
    styledRows.length = plainRows.length ∧
    List.Forall₂
      (fun a b => a.shouldMerge = b.shouldMerge ∧ a.row[1]? = b.row[1]? ∧
        a.row[2]? = b.row[2]? ∧ a.row[3]? = b.row[3]? ∧ a.row[5]? = b.row[5]?)
      styledRows plainRows ∧
    List.Forall₂
      (fun t p =>
        p.2.row[0]? = some (Join
          (t.2.2.IDs.map fun id => env.BaseVulnerabilityURL ++ id) newline) ∧
        p.1.row[0]? = some (Join
          (t.2.2.IDs.map fun id =>
            env.BaseVulnerabilityURL ++ env.BoldEscapeSeq ++ id ++ env.ResetEscapeSeq)
          newline) ∧
        ∃ kept,
          kept = firstOccurrences ((reachedRanges t.2.1 t.2.2).map shownFixed) ∧
          fixedVersionsOf env false t.2.1 t.2.2 = .ok kept ∧
          fixedVersionsOf env true t.2.1 t.2.2
            = .ok (kept.map fun v => env.BoldEscapeSeq ++ v ++ env.ResetEscapeSeq) ∧
          p.2.row[4]? = some (Join kept newline) ∧
          p.1.row[4]? = some (Join
            (kept.map fun v => env.BoldEscapeSeq ++ v ++ env.ResetEscapeSeq) newline))
      (selectedGroups c r) (styledRows.zip plainRows) ∧
    (∀ c', (∃ rows, tableBuilderInner env r true c' = .ok rows) ↔
      (∃ rows, tableBuilderInner env r false c' = .ok rows)) := by
  have h1 := rows_forall₂ env r true c styledRows hs
  have h0 := rows_forall₂ env r false c plainRows hp
  refine ⟨h1.length_eq.symm.trans h0.length_eq, ?_, ?_, ?_⟩
  · refine (forall₂_pair h1 h0).imp ?_
    rintro a b ⟨t, ⟨fa, _, ha⟩, ⟨fb, _, hb⟩⟩
    rw [ha, hb]
    unfold rowWith
    by_cases hg : t.2.1.Package.Ecosystem = GIT <;> simp [hg]
  · refine (forall₂_zip h1 h0).imp ?_
    rintro t p ⟨⟨fa, hfa, ha⟩, ⟨fb, hfb, hb⟩⟩
    have hka := (fixedVersionsOf_ok env true _ _ fa hfa).2
    have hkb := (fixedVersionsOf_ok env false _ _ fb hfb).2
    have hst : styled env true = fun v => env.BoldEscapeSeq ++ v ++ env.ResetEscapeSeq := by
      funext v
      rfl
    have hsf : styled env false = fun v => v := by
      funext v
      rfl
    rw [hst] at hka
    rw [hsf, List.map_id'] at hkb
    refine ⟨?_, ?_, _, rfl, ?_, ?_, ?_, ?_⟩
    · rw [hb, rowWith_link, linksOf_eq]
      rfl
    · rw [ha, rowWith_link, linksOf_eq]
      rfl
    · rw [hfb, hkb]
    · rw [hfa, hka]
    · rw [hb, (rowWith_cells env false _ _ _ fb).1, hkb]
    · rw [ha, (rowWith_cells env true _ _ _ fa).1, hka]
  · intro c'
    rw [tableBuilderInner_ok_iff, tableBuilderInner_ok_iff]

/-- Witness of C17 on `sampleResult` in `plainEnv`. -/
theorem styling_only_adds_markup_witness :
    tableBuilderInner plainEnv sampleResult true true = .ok sampleStyledCalledRows ∧
    tableBuilderInner plainEnv sampleResult false true = .ok sampleCalledRows ∧
    sampleStyledCalledRows.length = sampleCalledRows.length ∧
    List.Forall₂
      (fun a b => a.shouldMerge = b.shouldMerge ∧ a.row[1]? = b.row[1]? ∧
        a.row[2]? = b.row[2]? ∧ a.row[3]? = b.row[3]? ∧ a.row[5]? = b.row[5]?)
      sampleStyledCalledRows sampleCalledRows :=
  ⟨rfl, rfl,
    (styling_only_adds_markup plainEnv sampleResult true sampleStyledCalledRows
      sampleCalledRows rfl rfl).1,
    (styling_only_adds_markup plainEnv sampleResult true sampleStyledCalledRows
      sampleCalledRows rfl rfl).2.1⟩

/-- C18: when the row builder returns for both partitions, `PrintTableResults` returns;
if the scan result has at least one group the table has length at least 1 and `Render`
is called; and `Render` is called exactly when the scan result has at least one
group. -/
theorem findings_are_rendered (env : Env) (r : VulnerabilityResults) (s : Bool)
    (rows uncalledRows : List tbInnerResponse)
    (hc : tableBuilderInner env r s true = .ok rows)
    (hu : tableBuilderInner env r s false = .ok uncalledRows) :
    ∃ w, PrintTableResults env r = .ok w ∧
      (0 < totalGroups r → 1 ≤ w.Length ∧ TableCall.Render ∈ w) ∧
      (TableCall.Render ∈ w ↔ 0 < totalGroups r) := by
  obtain ⟨rows', hc'⟩ := (tableBuilderInner_ok_iff env r env.GetSize.isSome true).2
    ((tableBuilderInner_ok_iff env r s true).1 ⟨rows, hc⟩)
  obtain ⟨un', hu'⟩ := (tableBuilderInner_ok_iff env r env.GetSize.isSome false).2
    ((tableBuilderInner_ok_iff env r s false).1 ⟨uncalledRows, hu⟩)
  have hlc : rows'.length = groupCount true r := by
    rw [← length_selectedGroups]
    exact (rows_forall₂ env r _ true rows' hc').length_eq.symm
  have hlu : un'.length = groupCount false r := by
    rw [← length_selectedGroups]
    exact (rows_forall₂ env r _ false un' hu').length_eq.symm
  have htot := groupCount_add r
  have hlen : Writer.Length (headerCalls env ++ addedCalls rows' un')
      = rows'.length + (if un' = [] then 0 else 1 + un'.length) := by
    rw [length_append_calls, (headerCalls_facts env).1, length_addedCalls, Nat.zero_add]
  have hnot : TableCall.Render ∉ headerCalls env ++ addedCalls rows' un' := by
    intro h
    rcases List.mem_append.1 h with h | h
    · exact (headerCalls_facts env).2 h
    · exact render_not_mem_addedCalls rows' un' h
  have hun : un' = [] ↔ un'.length = 0 :=
    ⟨fun h => by rw [h]; rfl, List.eq_nil_of_length_eq_zero⟩
  refine ⟨_, PrintTableResults_eq env r rows' un' hc' hu', ?_, ?_⟩
  · intro hpos
    have hne : ¬ Writer.Length (headerCalls env ++ addedCalls rows' un') = 0 := by
      rw [hlen]
      by_cases he : un' = []
      · have := hun.1 he
        simp only [he, if_true]
        omega
      · simp only [he, if_false]
        omega
    rw [if_neg hne, length_append_calls]
    exact ⟨by omega, List.mem_append_right _ (List.mem_singleton_self _)⟩
  · by_cases h0 : Writer.Length (headerCalls env ++ addedCalls rows' un') = 0
    · rw [if_pos h0]
      rw [hlen] at h0
      have hz : totalGroups r = 0 := by
        by_cases he : un' = []
        · have := hun.1 he
          simp only [he, if_true] at h0
          omega
        · simp only [he, if_false] at h0
          omega
      exact ⟨fun h => absurd h hnot, fun h => by omega⟩
    · rw [if_neg h0]
      rw [hlen] at h0
      have hposs : 0 < totalGroups r := by
        by_cases he : un' = []
        · have := hun.1 he
          simp only [he, if_true] at h0
          omega
        · have : un'.length ≠ 0 := fun h => he (hun.2 h)
          omega
      exact ⟨fun _ => hposs, fun _ => List.mem_append_right _ (List.mem_singleton_self _)⟩

/-- Witness of C18 on `sampleResult`, which has two groups. -/
theorem findings_are_rendered_witness :
    tableBuilderInner workEnv sampleResult false true = .ok
      [⟨[lit "https://osv.dev/OSV-1", GIT, lit "abcdef1234567890", lit "abcdef1234567890",
        lit "fedcba0987", lit "go.mod"], true⟩] ∧
    0 < totalGroups sampleResult ∧
    ∃ w, PrintTableResults workEnv sampleResult = .ok w ∧
      (0 < totalGroups sampleResult → 1 ≤ w.Length ∧ TableCall.Render ∈ w) ∧
      (TableCall.Render ∈ w ↔ 0 < totalGroups sampleResult) :=
  ⟨rfl, by decide,
    findings_are_rendered workEnv sampleResult false _
      [⟨[lit "https://osv.dev/GHSA-1" ++ newline ++ lit "https://osv.dev/GHSA-1", lit "npm",
        lit "lodash", lit "4.0.0", lit "4.17.21", lit "go.mod"], false⟩] rfl rfl⟩

end OsvScanner
